import Mathlib

/-!
Verification of the constraint-propagation solver in
`function_wave_collapse.py` (procedural terrain generation by a local
wave-function-collapse scheme).

The Python program is embedded shallowly:

* `TType` is the enumeration backing the `Tile.types` class attribute, and
  `tileTypesInit` is the initial value of that shared list.
* A `Tile` stores its coordinates, its `type` attribute (`ty`) and its
  `choices` attribute.  In the source, `Tile.__init__` executes
  `self.choices = Tile.types` without copying, so a freshly built tile's
  `choices` is an alias of the shared class-level list; this is modelled by
  `choices = none`.  Any later reassignment (`tile.choices = [...]`) creates
  an owned list, modelled by `choices = some l`.
* The mutable program state (`WState`) carries the shared `Tile.types` list,
  the `tiles` grid (`tiles[j][i]`) and the numpy `scores` array, together
  with the `MAP_SIZE` dimensions, which the grid functions read.
* Python exceptions (the `IndexError` raised by `random.choices` on an empty
  population, the `ValueError` of `np.min` on an empty array, the `KeyError`
  of `Tile.type_to_color[None]`) are modelled by `Except Err`.
* The two calls to `random.choices` are modelled by consuming a stream of
  numbers `r : List Nat`; a draw from a non-empty list `l` takes the stream
  head modulo `l.length` as the index, so every list member is drawn under
  some stream, and any stream yields a member.  Weighted drawing only
  changes the distribution, not the support, because every entry of
  `Tile.type_weights` is positive.
-/

set_option maxHeartbeats 1000000

/-- Terrain categories: the members of the `Tile.types` class attribute. -/
inductive TType where
  | forest
  | meadow
  | beach
  | sea
  | mountains
deriving DecidableEq, Fintype

/-- The initial value of the shared class attribute `Tile.types`. -/
def tileTypesInit : List TType := [.forest, .meadow, .beach, .sea, .mountains]

/-- `Tile.allowed_neighbors`: per-category compatibility set (modelled as a
list used only through membership, as the Python set is). -/
def allowed_neighbors : TType → List TType
  | .mountains => [.mountains, .forest]
  | .forest => [.mountains, .forest, .meadow]
  | .meadow => [.forest, .meadow, .beach]
  | .beach => [.meadow, .beach, .sea]
  | .sea => [.beach, .sea]

/-- `Tile.type_weights`: the static positive selection weights. -/
def type_weights : TType → ℚ
  | .mountains => 1
  | .forest => 3 / 2
  | .meadow => 2
  | .beach => 1
  | .sea => 3 / 4

/-- `Tile.max_score = len(types) + 1`, computed once from the initial list. -/
def max_score : Nat := tileTypesInit.length + 1

/-- One grid cell.  `ty` is the `type` attribute (`none` = unresolved).
`choices = none` models the aliasing of `self.choices = Tile.types` in
`Tile.__init__` (no copy is made): reads go through the shared list.
`choices = some l` models an owned list produced by a later reassignment. -/
structure Tile where
  i : Nat
  j : Nat
  choices : Option (List TType)
  ty : Option TType
deriving DecidableEq

/-- The dummy result of an out-of-range grid access (never produced by the
program; it carries an empty owned candidate list). -/
def defaultTile : Tile := ⟨0, 0, some [], none⟩

/-- The mutable program state: the shared `Tile.types` list, the grid
`tiles[j][i]`, the numpy `scores` array and the `MAP_SIZE` dimensions. -/
structure WState where
  width : Nat
  height : Nat
  tileTypes : List TType
  tiles : List (List Tile)
  scores : List (List Nat)
deriving DecidableEq

/-- Python exceptions that the modelled code can raise. -/
inductive Err where
  | indexError
  | valueError
  | keyError
deriving DecidableEq

/-- The value of `find_and_update_most_constrained_tile` as seen by the
driver: either the committed tile (identified by its coordinates and
category), or the `tiles, None, None` solve-complete return. -/
inductive StepOutcome where
  | committed (i j : Nat) (t : TType)
  | complete
deriving DecidableEq

/-- The current value of `tile.choices`: the shared list when aliased. -/
def getChoices (st : WState) (t : Tile) : List TType :=
  t.choices.getD st.tileTypes

/-- The `Tile.score` property: `max_score` when resolved, otherwise the
length of the (possibly shared) candidate list. -/
def tileScore (types : List TType) (t : Tile) : Nat :=
  if t.ty.isSome then max_score else (t.choices.getD types).length

/-- `tiles[j][i]`. -/
def tileAt (st : WState) (i j : Nat) : Tile :=
  (st.tiles.getD j []).getD i defaultTile

/-- `scores[j][i]`. -/
def scoreAt (st : WState) (i j : Nat) : Nat :=
  (st.scores.getD j []).getD i 0

/-- In-place update `tiles[j][i] = t`. -/
def setTileAt (st : WState) (i j : Nat) (t : Tile) : WState :=
  { st with tiles := st.tiles.set j ((st.tiles.getD j []).set i t) }

/-- In-place update `scores[j][i] = v`. -/
def setScoreAt (st : WState) (i j : Nat) (v : Nat) : WState :=
  { st with scores := st.scores.set j ((st.scores.getD j []).set i v) }

/-- `get_neighbors(i, j)`: the up-to-four orthogonal neighbors, in the
source's order (left, up, right, down), bounded by `MAP_SIZE`. -/
def get_neighbors (W H i j : Nat) : List (Nat × Nat) :=
  (if 0 < i then [(i - 1, j)] else []) ++
    (if 0 < j then [(i, j - 1)] else []) ++
      (if i < W - 1 then [(i + 1, j)] else []) ++
        (if j < H - 1 then [(i, j + 1)] else [])

/-- `check_neighbors(tiles, tile_type, neighbors)`: `False` exactly when some
still-unresolved neighbor would be left without a compatible candidate. -/
def check_neighbors (st : WState) (tile_type : TType) (nbrs : List (Nat × Nat)) : Bool :=
  nbrs.all fun p =>
    let tile := tileAt st p.1 p.2
    !(tile.ty == none &&
      ((getChoices st tile).filter (fun x => (allowed_neighbors tile_type).contains x)).isEmpty)

/-- `update_neighbors(tiles, scores, tile_type, neighbors)`: reassign every
neighbor's `choices` to the filtered (owned) list and refresh its score. -/
def update_neighbors (tile_type : TType) : List (Nat × Nat) → WState → WState
  | [], st => st
  | p :: rest, st =>
    let tile := tileAt st p.1 p.2
    let tile' : Tile :=
      { tile with
        choices := some ((getChoices st tile).filter
          (fun x => (allowed_neighbors tile_type).contains x)) }
    update_neighbors tile_type rest
      (setScoreAt (setTileAt st p.1 p.2 tile') p.1 p.2 (tileScore st.tileTypes tile'))

/-- `tile.choices.remove(new_type)`: removes the first occurrence in place.
When the tile still aliases `Tile.types`, this mutates the shared list. -/
def removeChoice (st : WState) (i j : Nat) (t : TType) : WState :=
  let tile := tileAt st i j
  match tile.choices with
  | none => { st with tileTypes := st.tileTypes.erase t }
  | some l => setTileAt st i j { tile with choices := some (l.erase t) }

/-- The `while not valid` retry loop of
`find_and_update_most_constrained_tile`: draw (`Tile.choose_type`, which
sets `self.type` before the check and raises `IndexError` when the
population is empty), check the neighbors, and on failure remove the drawn
category and retry.  Each failed iteration removes one element of the
drawn-from list, so a fuel of `length + 1` is enough for the loop to run to
its own exit (the fuel-exhausted branch repeats the empty-population
error and is never reached from the fuel the caller supplies). -/
def commitLoop (nbrs : List (Nat × Nat)) (i j : Nat) :
    Nat → WState → List Nat → Except Err (WState × TType × List Nat)
  | 0, _, _ => .error .indexError
  | fuel + 1, st, r =>
    let tile := tileAt st i j
    let c := getChoices st tile
    if c.isEmpty then .error .indexError
    else
      let drawn := c.getD (r.headD 0 % c.length) .forest
      let st1 := setTileAt st i j { tile with ty := some drawn }
      if check_neighbors st1 drawn nbrs then .ok (st1, drawn, r.tail)
      else commitLoop nbrs i j fuel (removeChoice st1 i j drawn) r.tail

/-- `scores[j][i]` accessed through defaults, as used by `whereEq`. -/
def entryAt (rows : List (List Nat)) (i j : Nat) : Nat :=
  (rows.getD j []).getD i 0

/-- `np.min(scores)` (`none` models the `ValueError` on an empty array). -/
def npMin (rows : List (List Nat)) : Option Nat :=
  match rows.flatten with
  | [] => none
  | x :: xs => some (xs.foldl min x)

/-- `list(zip(*np.where(scores == minimum)))`: the row-major list of `(j, i)`
coordinates holding the minimum. -/
def whereEq (rows : List (List Nat)) (m : Nat) : List (Nat × Nat) :=
  ((List.range rows.length).map fun j =>
    (List.range (rows.getD j []).length).filterMap fun i =>
      if entryAt rows i j = m then some (j, i) else none).flatten

/-- `find_and_update_most_constrained_tile(tiles, scores)`: one solver step.
Selection of a random minimum-score tile (`choose_tile`), the weighted
commitment retry loop, the score refresh of the committed tile, and the
neighbor update. -/
def stepFn (st : WState) (r : List Nat) : Except Err (WState × StepOutcome × List Nat) :=
  match npMin st.scores with
  | none => .error .valueError
  | some m =>
    if m = max_score then .ok (st, .complete, r)
    else
      let targets := whereEq st.scores m
      if targets.isEmpty then .error .indexError
      else
        let ji := targets.getD (r.headD 0 % targets.length) (0, 0)
        let i := ji.2
        let j := ji.1
        let nbrs := get_neighbors st.width st.height i j
        match commitLoop nbrs i j ((getChoices st (tileAt st i j)).length + 1) st r.tail with
        | .error e => .error e
        | .ok (st1, t, r2) =>
          let st2 := setScoreAt st1 i j (tileScore st1.tileTypes (tileAt st1 i j))
          .ok (update_neighbors t nbrs st2, .committed i j t, r2)

/-- A fresh tile: `Tile.__init__` leaves `choices` aliased to `Tile.types`
and `type` unset. -/
def initTile (i j : Nat) : Tile := ⟨i, j, none, none⟩

/-- The `__main__` setup: the full grid of fresh tiles and the score array
computed from their `score` properties. -/
def initState (W H : Nat) : WState :=
  let tiles := (List.range H).map fun j => (List.range W).map fun i => initTile i j
  { width := W
    height := H
    tileTypes := tileTypesInit
    tiles := tiles
    scores := tiles.map fun row => row.map (tileScore tileTypesInit) }

/-- Iterated driver calls of `find_and_update_most_constrained_tile`;
an exception in any call aborts the run. -/
def runSteps : Nat → WState → List Nat → Except Err (WState × List Nat)
  | 0, st, r => .ok (st, r)
  | n + 1, st, r =>
    match stepFn st r with
    | .error e => .error e
    | .ok (st', _, r') => runSteps n st' r'

/-- The result of driver call number `n + 1` (an error once any call up to
and including it has raised). -/
def outcomeAfter (st0 : WState) (r0 : List Nat) (n : Nat) : Except Err StepOutcome :=
  match runSteps n st0 r0 with
  | .error e => .error e
  | .ok (st, r) =>
    match stepFn st r with
    | .error e => .error e
    | .ok (_, out, _) => .ok out

/-- A terminal driver-visible result: solve complete, or a raised exception
(the program's only contradiction signal). -/
def isTerminal : Except Err StepOutcome → Bool
  | .ok .complete => true
  | .ok (.committed _ _ _) => false
  | .error _ => true

/-- The number of unresolved tiles of the grid (cells enumerated in
row-major order by `k = i + width * j`). -/
def unresolvedCount (st : WState) : Nat :=
  ((List.range (st.width * st.height)).filter fun k =>
    (tileAt st (k % st.width) (k / st.width)).ty == none).length

/-- The scan of `remove_solitary_tiles` from a given flat position: skip a
tile whose type equals its first neighbor's, overwrite the first tile whose
neighbors all share one type (the `KeyError` of `type_to_color[None]` when
that shared type is `None`), and report the updated tile and its flat
index.  `none` models the `None, None, None` return. -/
def removeSolitaryFrom (st : WState) : List Tile → Nat → Except Err (Option (WState × Nat × Nat × Nat))
  | [], _ => .ok none
  | tile :: rest, k =>
    let nbrPs := get_neighbors st.width st.height tile.i tile.j
    match nbrPs with
    | [] => .error .indexError
    | p0 :: _ =>
      if tile.ty = (tileAt st p0.1 p0.2).ty then removeSolitaryFrom st rest (k + 1)
      else
        let ntypes := (nbrPs.map fun q => (tileAt st q.1 q.2).ty).dedup
        match ntypes with
        | [none] => .error .keyError
        | [some c] =>
          .ok (some (setTileAt st tile.i tile.j { tileAt st tile.i tile.j with ty := some c },
            tile.i, tile.j, k))
        | _ => removeSolitaryFrom st rest (k + 1)

/-- `remove_solitary_tiles(tiles, tile_start)`. -/
def removeSolitary (st : WState) (tile_start : Nat) : Except Err (Option (WState × Nat × Nat × Nat)) :=
  removeSolitaryFrom st (st.tiles.flatten.drop tile_start) tile_start

/-- Shape of a well-formed state: the grid and score arrays are
`height` lists of `width`-long rows. -/
def ShapeOK (st : WState) : Prop :=
  st.tiles.length = st.height ∧
  (∀ j, j < st.height → (st.tiles.getD j []).length = st.width) ∧
  st.scores.length = st.height ∧
  (∀ j, j < st.height → (st.scores.getD j []).length = st.width)

/-- The score array agrees with every tile's `score` property. -/
def AgreeOK (st : WState) : Prop :=
  ∀ j, j < st.height → ∀ i, i < st.width →
    scoreAt st i j = tileScore st.tileTypes (tileAt st i j)

/-- Every candidate list is a duplicate-free selection from the
configuration's category list. -/
def SubOK (st : WState) : Prop :=
  ∀ j, j < st.height → ∀ i, i < st.width →
    (∀ a ∈ getChoices st (tileAt st i j), a ∈ tileTypesInit) ∧
      (getChoices st (tileAt st i j)).Nodup

/-- Adjacency validity: any two resolved neighbors carry compatible
categories. -/
def AdjOK (st : WState) : Prop :=
  ∀ j, j < st.height → ∀ i, i < st.width →
    ∀ p ∈ get_neighbors st.width st.height i j, ∀ a b,
      (tileAt st i j).ty = some a → (tileAt st p.1 p.2).ty = some b →
        b ∈ allowed_neighbors a

/-- Narrowing validity: the candidates of an unresolved tile next to a
resolved tile all lie in the resolved tile's compatibility set. -/
def NarrowOK (st : WState) : Prop :=
  ∀ j, j < st.height → ∀ i, i < st.width →
    ∀ p ∈ get_neighbors st.width st.height i j, ∀ a,
      (tileAt st i j).ty = some a → (tileAt st p.1 p.2).ty = none →
        ∀ x ∈ getChoices st (tileAt st p.1 p.2), x ∈ allowed_neighbors a

/-- The master reachability invariant of a solver state: the shared list is
still the initial configuration, the arrays have the advertised shape, the
score array is in sync, candidate lists are duplicate-free selections from
the configuration, and adjacency plus narrowing validity hold. -/
def SolverInv (st : WState) : Prop :=
  st.tileTypes = tileTypesInit ∧ ShapeOK st ∧ AgreeOK st ∧ SubOK st ∧
    AdjOK st ∧ NarrowOK st

instance decShapeOK (st : WState) : Decidable (ShapeOK st) := by
  unfold ShapeOK; exact inferInstance

instance decAgreeOK (st : WState) : Decidable (AgreeOK st) := by
  unfold AgreeOK; exact inferInstance

instance decSubOK (st : WState) : Decidable (SubOK st) := by
  unfold SubOK; exact inferInstance

set_option synthInstance.maxSize 4000 in
instance decAdjOK (st : WState) : Decidable (AdjOK st) := by
  unfold AdjOK; exact inferInstance

set_option synthInstance.maxSize 4000 in
instance decNarrowOK (st : WState) : Decidable (NarrowOK st) := by
  unfold NarrowOK; exact inferInstance

instance decSolverInv (st : WState) : Decidable (SolverInv st) := by
  unfold SolverInv; exact inferInstance

theorem width_setTileAt (st : WState) (i j : Nat) (t : Tile) :
    (setTileAt st i j t).width = st.width := rfl

theorem height_setTileAt (st : WState) (i j : Nat) (t : Tile) :
    (setTileAt st i j t).height = st.height := rfl

theorem tileTypes_setTileAt (st : WState) (i j : Nat) (t : Tile) :
    (setTileAt st i j t).tileTypes = st.tileTypes := rfl

theorem scores_setTileAt (st : WState) (i j : Nat) (t : Tile) :
    (setTileAt st i j t).scores = st.scores := rfl

theorem width_setScoreAt (st : WState) (i j v : Nat) :
    (setScoreAt st i j v).width = st.width := rfl

theorem height_setScoreAt (st : WState) (i j v : Nat) :
    (setScoreAt st i j v).height = st.height := rfl

theorem tileTypes_setScoreAt (st : WState) (i j v : Nat) :
    (setScoreAt st i j v).tileTypes = st.tileTypes := rfl

theorem tiles_setScoreAt (st : WState) (i j v : Nat) :
    (setScoreAt st i j v).tiles = st.tiles := rfl

theorem tileAt_setScoreAt (st : WState) (i j v a b : Nat) :
    tileAt (setScoreAt st i j v) a b = tileAt st a b := rfl

theorem scoreAt_setTileAt (st : WState) (i j : Nat) (t : Tile) (a b : Nat) :
    scoreAt (setTileAt st i j t) a b = scoreAt st a b := rfl

theorem getChoices_setTileAt (st : WState) (i j : Nat) (t u : Tile) :
    getChoices (setTileAt st i j t) u = getChoices st u := rfl

theorem getChoices_setScoreAt (st : WState) (i j v : Nat) (u : Tile) :
    getChoices (setScoreAt st i j v) u = getChoices st u := rfl

theorem getD_set_self {α : Type _} (l : List α) (n : Nat) (a d : α) (h : n < l.length) :
    (l.set n a).getD n d = a := by
  simp [List.getD_eq_getElem?_getD, List.getElem?_set_self (by simpa using h)]

theorem getD_set_ne {α : Type _} (l : List α) (n m : Nat) (a d : α) (h : n ≠ m) :
    (l.set n a).getD m d = l.getD m d := by
  simp [List.getD_eq_getElem?_getD, List.getElem?_set_ne h]

theorem getD_mem_of_lt {α : Type _} (l : List α) (n : Nat) (d : α) (h : n < l.length) :
    l.getD n d ∈ l := by
  simp only [List.getD_eq_getElem?_getD, List.getElem?_eq_getElem h, Option.getD_some]
  exact l.getElem_mem h

theorem tileAt_setTileAt_self (st : WState) (i j : Nat) (t : Tile)
    (hj : j < st.tiles.length) (hi : i < (st.tiles.getD j []).length) :
    tileAt (setTileAt st i j t) i j = t := by
  unfold tileAt setTileAt
  simp only []
  rw [getD_set_self _ _ _ _ hj, getD_set_self _ _ _ _ hi]

theorem tileAt_setTileAt_ne (st : WState) (i j : Nat) (t : Tile) (a b : Nat)
    (hne : (a, b) ≠ (i, j)) :
    tileAt (setTileAt st i j t) a b = tileAt st a b := by
  unfold tileAt setTileAt
  simp only []
  rcases eq_or_ne b j with rfl | hb
  · have ha : i ≠ a := by
      intro h
      exact hne (by simp [h])
    rcases Nat.lt_or_ge b st.tiles.length with hj | hj
    · rw [getD_set_self _ _ _ _ hj, getD_set_ne _ _ _ _ _ ha]
    · rw [List.set_eq_of_length_le hj]
  · rw [getD_set_ne _ _ _ _ _ (Ne.symm hb)]

theorem scoreAt_setScoreAt_self (st : WState) (i j v : Nat)
    (hj : j < st.scores.length) (hi : i < (st.scores.getD j []).length) :
    scoreAt (setScoreAt st i j v) i j = v := by
  unfold scoreAt setScoreAt
  simp only []
  rw [getD_set_self _ _ _ _ hj, getD_set_self _ _ _ _ hi]

theorem scoreAt_setScoreAt_ne (st : WState) (i j v a b : Nat)
    (hne : (a, b) ≠ (i, j)) :
    scoreAt (setScoreAt st i j v) a b = scoreAt st a b := by
  unfold scoreAt setScoreAt
  simp only []
  rcases eq_or_ne b j with rfl | hb
  · have ha : i ≠ a := by
      intro h
      exact hne (by simp [h])
    rcases Nat.lt_or_ge b st.scores.length with hj | hj
    · rw [getD_set_self _ _ _ _ hj, getD_set_ne _ _ _ _ _ ha]
    · rw [List.set_eq_of_length_le hj]
  · rw [getD_set_ne _ _ _ _ _ (Ne.symm hb)]

theorem shapeOK_setTileAt (st : WState) (i j : Nat) (t : Tile) (h : ShapeOK st) :
    ShapeOK (setTileAt st i j t) := by
  obtain ⟨h1, h2, h3, h4⟩ := h
  refine ⟨?_, ?_, h3, h4⟩
  · simp only [setTileAt, List.length_set]
    exact h1
  · intro j' hj'
    simp only [setTileAt] at hj' ⊢
    rcases eq_or_ne j' j with rfl | hne
    · rcases Nat.lt_or_ge j' st.tiles.length with hj | hj
      · rw [getD_set_self _ _ _ _ hj]
        simpa using h2 j' hj'
      · rw [List.set_eq_of_length_le hj]
        exact h2 j' hj'
    · rw [getD_set_ne _ _ _ _ _ (Ne.symm hne)]
      exact h2 j' hj'

theorem shapeOK_setScoreAt (st : WState) (i j v : Nat) (h : ShapeOK st) :
    ShapeOK (setScoreAt st i j v) := by
  obtain ⟨h1, h2, h3, h4⟩ := h
  refine ⟨h1, h2, ?_, ?_⟩
  · simp only [setScoreAt, List.length_set]
    exact h3
  · intro j' hj'
    simp only [setScoreAt] at hj' ⊢
    rcases eq_or_ne j' j with rfl | hne
    · rcases Nat.lt_or_ge j' st.scores.length with hj | hj
      · rw [getD_set_self _ _ _ _ hj]
        simpa using h4 j' hj'
      · rw [List.set_eq_of_length_le hj]
        exact h4 j' hj'
    · rw [getD_set_ne _ _ _ _ _ (Ne.symm hne)]
      exact h4 j' hj'

theorem mem_get_neighbors {W H i j : Nat} {p : Nat × Nat} :
    p ∈ get_neighbors W H i j ↔
      (0 < i ∧ p = (i - 1, j)) ∨ (0 < j ∧ p = (i, j - 1)) ∨
        (i < W - 1 ∧ p = (i + 1, j)) ∨ (j < H - 1 ∧ p = (i, j + 1)) := by
  unfold get_neighbors
  by_cases h1 : 0 < i <;> by_cases h2 : 0 < j <;> by_cases h3 : i < W - 1 <;>
    by_cases h4 : j < H - 1 <;> simp [h1, h2, h3, h4]

theorem get_neighbors_ne_self {W H i j : Nat} {p : Nat × Nat}
    (hp : p ∈ get_neighbors W H i j) : p ≠ (i, j) := by
  rcases mem_get_neighbors.1 hp with ⟨h, rfl⟩ | ⟨h, rfl⟩ | ⟨h, rfl⟩ | ⟨h, rfl⟩ <;>
    simp [Prod.ext_iff] <;> omega

theorem get_neighbors_range {W H i j : Nat} {p : Nat × Nat}
    (hi : i < W) (hj : j < H) (hp : p ∈ get_neighbors W H i j) :
    p.1 < W ∧ p.2 < H := by
  rcases mem_get_neighbors.1 hp with ⟨h, rfl⟩ | ⟨h, rfl⟩ | ⟨h, rfl⟩ | ⟨h, rfl⟩ <;>
    constructor <;> simp <;> omega

theorem get_neighbors_symm {W H i j : Nat} {p : Nat × Nat}
    (hi : i < W) (hj : j < H) (hp1 : p.1 < W) (hp2 : p.2 < H) :
    p ∈ get_neighbors W H i j ↔ (i, j) ∈ get_neighbors W H p.1 p.2 := by
  obtain ⟨a, b⟩ := p
  rw [mem_get_neighbors, mem_get_neighbors]
  simp only [Prod.mk.injEq] at *
  omega

theorem get_neighbors_nodup (W H i j : Nat) : (get_neighbors W H i j).Nodup := by
  unfold get_neighbors
  by_cases h1 : 0 < i <;> by_cases h2 : 0 < j <;> by_cases h3 : i < W - 1 <;>
    by_cases h4 : j < H - 1 <;> simp [h1, h2, h3, h4, Prod.ext_iff] <;> omega

theorem foldl_min_le_init (xs : List Nat) (x : Nat) : xs.foldl min x ≤ x := by
  induction xs generalizing x with
  | nil => exact Nat.le_refl x
  | cons y ys ih =>
    exact Nat.le_trans (ih (min x y)) (Nat.min_le_left x y)

theorem foldl_min_le_mem (xs : List Nat) (x y : Nat) : y ∈ xs → xs.foldl min x ≤ y := by
  induction xs generalizing x with
  | nil => intro hy; cases hy
  | cons z zs ih =>
    intro hy
    rcases List.mem_cons.1 hy with rfl | hmem
    · exact Nat.le_trans (foldl_min_le_init zs (min x y)) (Nat.min_le_right x y)
    · exact ih (min x z) hmem

theorem foldl_min_mem (xs : List Nat) (x : Nat) :
    xs.foldl min x = x ∨ xs.foldl min x ∈ xs := by
  induction xs generalizing x with
  | nil => exact Or.inl rfl
  | cons y ys ih =>
    rcases ih (min x y) with h | h
    · rcases min_choice x y with hm | hm
      · exact Or.inl (by rw [List.foldl_cons, h, hm])
      · exact Or.inr (by rw [List.foldl_cons, h, hm]; exact List.mem_cons_self y ys)
    · exact Or.inr (List.mem_cons_of_mem y h)

theorem npMin_mem {rows : List (List Nat)} {m : Nat} (h : npMin rows = some m) :
    m ∈ rows.flatten := by
  unfold npMin at h
  rcases hx : rows.flatten with _ | ⟨x, xs⟩
  · rw [hx] at h
    cases h
  · rw [hx] at h
    cases h
    rcases foldl_min_mem xs x with hm | hm
    · rw [hm]
      exact List.mem_cons_self x xs
    · exact List.mem_cons_of_mem x hm

theorem npMin_le {rows : List (List Nat)} {m : Nat} (h : npMin rows = some m) :
    ∀ x ∈ rows.flatten, m ≤ x := by
  intro y hy
  unfold npMin at h
  rcases hx : rows.flatten with _ | ⟨x, xs⟩
  · rw [hx] at hy
    cases hy
  · rw [hx] at h hy
    cases h
    rcases List.mem_cons.1 hy with rfl | hmem
    · exact foldl_min_le_init xs y
    · exact foldl_min_le_mem xs x y hmem

theorem getD_eq_getElem_of_lt {α : Type _} (l : List α) (n : Nat) (d : α)
    (h : n < l.length) : l.getD n d = l[n] := by
  simp [List.getD_eq_getElem?_getD, List.getElem?_eq_getElem h]

theorem entryAt_mem_flatten {rows : List (List Nat)} {i j : Nat}
    (hj : j < rows.length) (hi : i < (rows.getD j []).length) :
    entryAt rows i j ∈ rows.flatten := by
  exact List.mem_flatten_of_mem (getD_mem_of_lt rows j [] hj) (getD_mem_of_lt _ i 0 hi)

theorem mem_whereEq {rows : List (List Nat)} {m : Nat} {p : Nat × Nat} :
    p ∈ whereEq rows m ↔
      p.1 < rows.length ∧ p.2 < (rows.getD p.1 []).length ∧ entryAt rows p.2 p.1 = m := by
  obtain ⟨j, i⟩ := p
  unfold whereEq
  rw [List.mem_flatten]
  constructor
  · rintro ⟨l, hl, hmem⟩
    rcases List.mem_map.1 hl with ⟨j2, hj2, rfl⟩
    rcases List.mem_filterMap.1 hmem with ⟨i2, hi2, hif⟩
    rw [List.mem_range] at hj2 hi2
    by_cases he : entryAt rows i2 j2 = m
    · rw [if_pos he] at hif
      cases hif
      exact ⟨hj2, hi2, he⟩
    · rw [if_neg he] at hif
      cases hif
  · rintro ⟨hj, hi, he⟩
    refine ⟨_, List.mem_map.2 ⟨j, List.mem_range.2 hj, rfl⟩, ?_⟩
    exact List.mem_filterMap.2 ⟨i, List.mem_range.2 hi, by rw [if_pos he]⟩

theorem whereEq_ne_nil {rows : List (List Nat)} {m : Nat} (h : npMin rows = some m) :
    whereEq rows m ≠ [] := by
  have hm := npMin_mem h
  rcases List.mem_flatten.1 hm with ⟨row, hrow, hmem⟩
  rcases List.mem_iff_getElem.1 hrow with ⟨j, hj, rfl⟩
  rcases List.mem_iff_getElem.1 hmem with ⟨i, hi, he⟩
  have hgd : rows.getD j [] = rows[j] := getD_eq_getElem_of_lt rows j [] hj
  intro hnil
  have hin : (j, i) ∈ whereEq rows m := by
    rw [mem_whereEq]
    refine ⟨hj, by rw [hgd]; exact hi, ?_⟩
    unfold entryAt
    rw [hgd, ← he]
    exact getD_eq_getElem_of_lt _ i 0 hi
  rw [hnil] at hin
  cases hin

theorem tiles_length_setTileAt (st : WState) (i j : Nat) (t : Tile) :
    (setTileAt st i j t).tiles.length = st.tiles.length := by
  simp [setTileAt]

theorem rowlen_setTileAt (st : WState) (i j : Nat) (t : Tile) (b : Nat) :
    ((setTileAt st i j t).tiles.getD b []).length = (st.tiles.getD b []).length := by
  simp only [setTileAt]
  rcases eq_or_ne b j with rfl | hb
  · rcases Nat.lt_or_ge b st.tiles.length with hj | hj
    · rw [getD_set_self _ _ _ _ hj]
      simp
    · rw [List.set_eq_of_length_le hj]
  · rw [getD_set_ne _ _ _ _ _ (Ne.symm hb)]

theorem scores_length_setScoreAt (st : WState) (i j v : Nat) :
    (setScoreAt st i j v).scores.length = st.scores.length := by
  simp [setScoreAt]

theorem srowlen_setScoreAt (st : WState) (i j v : Nat) (b : Nat) :
    ((setScoreAt st i j v).scores.getD b []).length = (st.scores.getD b []).length := by
  simp only [setScoreAt]
  rcases eq_or_ne b j with rfl | hb
  · rcases Nat.lt_or_ge b st.scores.length with hj | hj
    · rw [getD_set_self _ _ _ _ hj]
      simp
    · rw [List.set_eq_of_length_le hj]
  · rw [getD_set_ne _ _ _ _ _ (Ne.symm hb)]

theorem commitLoop_owned (nbrs : List (Nat × Nat)) (i j : Nat) :
    ∀ (fuel : Nat) (st : WState) (r : List Nat) (l : List TType) (st1 : WState)
      (t : TType) (r1 : List Nat),
      (tileAt st i j).choices = some l →
      j < st.tiles.length → i < (st.tiles.getD j []).length →
      commitLoop nbrs i j fuel st r = .ok (st1, t, r1) →
      st1.tileTypes = st.tileTypes ∧ st1.width = st.width ∧ st1.height = st.height ∧
        st1.scores = st.scores ∧
        st1.tiles.length = st.tiles.length ∧
        (∀ b, (st1.tiles.getD b []).length = (st.tiles.getD b []).length) ∧
        (∀ a b, (a, b) ≠ (i, j) → tileAt st1 a b = tileAt st a b) ∧
        (tileAt st1 i j).i = (tileAt st i j).i ∧ (tileAt st1 i j).j = (tileAt st i j).j ∧
        (tileAt st1 i j).ty = some t ∧
        (∃ l2, (tileAt st1 i j).choices = some l2 ∧ l2 ⊆ l ∧ t ∈ l2 ∧
          (l.Nodup → l2.Nodup)) ∧
        check_neighbors st1 t nbrs = true := by
  intro fuel
  induction fuel with
  | zero =>
    intro st r l st1 t r1 _ _ _ hrun
    cases hrun
  | succ fuel ih =>
    intro st r l st1 t r1 hl hj hi hrun
    simp only [commitLoop] at hrun
    rw [show getChoices st (tileAt st i j) = l by rw [getChoices, hl]; rfl] at hrun
    by_cases hemp : l.isEmpty
    · rw [if_pos hemp] at hrun
      cases hrun
    · rw [if_neg hemp] at hrun
      have hlnil : l ≠ [] := by
        intro h
        rw [h] at hemp
        exact hemp rfl
      have hlen : 0 < l.length := List.length_pos.2 hlnil
      set drawn := l.getD (r.headD 0 % l.length) .forest with hdrawn
      have hdmem : drawn ∈ l := getD_mem_of_lt l _ _ (Nat.mod_lt _ hlen)
      set tile1 : Tile := { tileAt st i j with ty := some drawn } with htile1
      set stA := setTileAt st i j tile1 with hstA
      have htA : tileAt stA i j = tile1 := tileAt_setTileAt_self st i j tile1 hj hi
      by_cases hchk : check_neighbors stA drawn nbrs
      · rw [if_pos hchk] at hrun
        simp only [Except.ok.injEq, Prod.mk.injEq] at hrun
        obtain ⟨rfl, rfl, rfl⟩ := hrun
        refine ⟨rfl, rfl, rfl, rfl, tiles_length_setTileAt st i j tile1,
          fun b => rowlen_setTileAt st i j tile1 b,
          fun a b hab => tileAt_setTileAt_ne st i j tile1 a b hab,
          ?_, ?_, ?_, ⟨l, ?_, fun _ h => h, hdmem, fun h => h⟩, hchk⟩
        · rw [htA]
        · rw [htA]
        · rw [htA]
        · rw [htA]
          exact hl
      · rw [if_neg hchk] at hrun
        set stB := removeChoice stA i j drawn with hstB
        have hchoicesA : (tileAt stA i j).choices = some l := by
          rw [htA]
          exact hl
        have hBdef : stB = setTileAt stA i j { tileAt stA i j with choices := some (l.erase drawn) } := by
          rw [hstB]
          simp only [removeChoice, hchoicesA]
        have hjB : j < stB.tiles.length := by
          rw [hBdef, tiles_length_setTileAt, hstA, tiles_length_setTileAt]
          exact hj
        have hiB : i < (stB.tiles.getD j []).length := by
          rw [hBdef, rowlen_setTileAt, hstA, rowlen_setTileAt]
          exact hi
        have hjA : j < stA.tiles.length := by
          rw [hstA, tiles_length_setTileAt]
          exact hj
        have hiA : i < (stA.tiles.getD j []).length := by
          rw [hstA, rowlen_setTileAt]
          exact hi
        have hchoicesB : (tileAt stB i j).choices = some (l.erase drawn) := by
          rw [hBdef, tileAt_setTileAt_self stA i j _ hjA hiA]
        obtain ⟨e1, e2, e3, e4, e4a, e4b, e5, e6, e7, e8, ⟨l2, f1, f2, f3, f4⟩, e9⟩ :=
          ih stB r.tail (l.erase drawn) st1 t r1 hchoicesB hjB hiB hrun
        have hBtypes : stB.tileTypes = st.tileTypes := by
          rw [hBdef]
          rfl
        have hBscores : stB.scores = st.scores := by
          rw [hBdef]
          rfl
        have hBframe : ∀ a b, (a, b) ≠ (i, j) → tileAt stB a b = tileAt st a b := by
          intro a b hab
          rw [hBdef, tileAt_setTileAt_ne _ _ _ _ _ _ hab, hstA,
            tileAt_setTileAt_ne _ _ _ _ _ _ hab]
        have hBtile : (tileAt stB i j).i = (tileAt st i j).i ∧
            (tileAt stB i j).j = (tileAt st i j).j := by
          rw [hBdef, tileAt_setTileAt_self stA i j _ hjA hiA, htA]
          exact ⟨rfl, rfl⟩
        have hBw : stB.width = st.width := by
          rw [hBdef]
          rfl
        have hBh : stB.height = st.height := by
          rw [hBdef]
          rfl
        have hBtl : stB.tiles.length = st.tiles.length := by
          rw [hBdef, tiles_length_setTileAt, hstA, tiles_length_setTileAt]
        have hBrl : ∀ b, (stB.tiles.getD b []).length = (st.tiles.getD b []).length := by
          intro b
          rw [hBdef, rowlen_setTileAt, hstA, rowlen_setTileAt]
        refine ⟨e1.trans hBtypes, e2.trans hBw, e3.trans hBh, e4.trans hBscores,
          e4a.trans hBtl, fun b => (e4b b).trans (hBrl b), ?_, ?_, ?_, e8,
          ⟨l2, f1, ?_, f3, ?_⟩, e9⟩
        · intro a b hab
          rw [e5 a b hab, hBframe a b hab]
        · rw [e6, hBtile.1]
        · rw [e7, hBtile.2]
        · exact fun x hx => List.mem_of_mem_erase (f2 hx)
        · intro hnd
          exact f4 (hnd.erase drawn)

theorem commitLoop_fresh (nbrs : List (Nat × Nat)) (i j fuel : Nat) (st : WState)
    (r : List Nat)
    (hfresh : (tileAt st i j).choices = none)
    (hne : st.tileTypes ≠ [])
    (hchk : ∀ t, check_neighbors (setTileAt st i j { tileAt st i j with ty := some t }) t
      nbrs = true) :
    ∃ t, t ∈ st.tileTypes ∧
      commitLoop nbrs i j (fuel + 1) st r =
        .ok (setTileAt st i j { tileAt st i j with ty := some t }, t, r.tail) := by
  have hc : getChoices st (tileAt st i j) = st.tileTypes := by
    rw [getChoices, hfresh]
    rfl
  have hlen : 0 < st.tileTypes.length := List.length_pos.2 hne
  refine ⟨st.tileTypes.getD (r.headD 0 % st.tileTypes.length) .forest,
    getD_mem_of_lt _ _ _ (Nat.mod_lt _ hlen), ?_⟩
  simp only [commitLoop, hc]
  rw [if_neg (by simp [List.isEmpty_iff, hne]), if_pos (hchk _)]

theorem full_of_nodup_sub (l : List TType) (hnd : l.Nodup)
    (hsub : ∀ x ∈ l, x ∈ tileTypesInit) (hlen : tileTypesInit.length ≤ l.length) :
    ∀ y ∈ tileTypesInit, y ∈ l := by
  intro y hy
  have h1 : l.toFinset ⊆ tileTypesInit.toFinset := by
    intro a ha
    rw [List.mem_toFinset] at ha ⊢
    exact hsub a ha
  have hc1 : l.toFinset.card = l.length := List.toFinset_card_of_nodup hnd
  have hc2 : tileTypesInit.toFinset.card = tileTypesInit.length :=
    List.toFinset_card_of_nodup (by decide)
  have heq : l.toFinset = tileTypesInit.toFinset :=
    Finset.eq_of_subset_of_card_le h1 (by rw [hc1, hc2]; exact hlen)
  have : y ∈ l.toFinset := by
    rw [heq, List.mem_toFinset]
    exact hy
  rw [List.mem_toFinset] at this
  exact this

theorem allowed_meets_types : ∀ t : TType, ∃ y, y ∈ allowed_neighbors t ∧ y ∈ tileTypesInit := by
  decide

theorem check_neighbors_of_full (st : WState) (i j : Nat) (t : TType) (u : Tile)
    (hsub : SubOK st)
    (hi : i < st.width) (hj : j < st.height)
    (hfull : ∀ b, b < st.height → ∀ a, a < st.width → (tileAt st a b).ty = none →
      tileTypesInit.length ≤ (getChoices st (tileAt st a b)).length) :
    check_neighbors (setTileAt st i j u) t (get_neighbors st.width st.height i j) = true := by
  simp only [check_neighbors, List.all_eq_true]
  intro p hp
  obtain ⟨hp1, hp2⟩ := get_neighbors_range hi hj hp
  have hpne := get_neighbors_ne_self hp
  simp only [tileAt_setTileAt_ne st i j u p.1 p.2 hpne, getChoices_setTileAt]
  rcases hty : (tileAt st p.1 p.2).ty with _ | a
  · have hfl := hfull p.2 hp2 p.1 hp1 hty
    obtain ⟨hsb, hnd⟩ := hsub p.2 hp2 p.1 hp1
    have hfull2 := full_of_nodup_sub _ hnd hsb hfl
    obtain ⟨y, hy1, hy2⟩ := allowed_meets_types t
    simp [hty]
    exact ⟨y, hfull2 y hy2, hy1⟩
  · simp [hty]

theorem update_neighbors_spec (t : TType) :
    ∀ (nbrs : List (Nat × Nat)) (st : WState), nbrs.Nodup →
      (∀ p ∈ nbrs, p.2 < st.tiles.length ∧ p.1 < (st.tiles.getD p.2 []).length ∧
        p.2 < st.scores.length ∧ p.1 < (st.scores.getD p.2 []).length) →
      (update_neighbors t nbrs st).tileTypes = st.tileTypes ∧
      (update_neighbors t nbrs st).width = st.width ∧
      (update_neighbors t nbrs st).height = st.height ∧
      (update_neighbors t nbrs st).tiles.length = st.tiles.length ∧
      (∀ b, ((update_neighbors t nbrs st).tiles.getD b []).length =
        (st.tiles.getD b []).length) ∧
      (update_neighbors t nbrs st).scores.length = st.scores.length ∧
      (∀ b, ((update_neighbors t nbrs st).scores.getD b []).length =
        (st.scores.getD b []).length) ∧
      (∀ a b, (a, b) ∉ nbrs →
        tileAt (update_neighbors t nbrs st) a b = tileAt st a b ∧
        scoreAt (update_neighbors t nbrs st) a b = scoreAt st a b) ∧
      (∀ p ∈ nbrs,
        tileAt (update_neighbors t nbrs st) p.1 p.2 =
          { tileAt st p.1 p.2 with
            choices := some ((getChoices st (tileAt st p.1 p.2)).filter
              (fun x => (allowed_neighbors t).contains x)) } ∧
        scoreAt (update_neighbors t nbrs st) p.1 p.2 =
          tileScore st.tileTypes (tileAt (update_neighbors t nbrs st) p.1 p.2)) := by
  intro nbrs
  induction nbrs with
  | nil =>
    intro st _ _
    refine ⟨rfl, rfl, rfl, rfl, fun b => rfl, rfl, fun b => rfl, fun a b _ => ⟨rfl, rfl⟩,
      fun p hp => absurd hp (List.not_mem_nil p)⟩
  | cons q rest ih =>
    intro st hnd hrange
    obtain ⟨hqj, hqi, hqsj, hqsi⟩ := hrange q (List.mem_cons_self q rest)
    have hqrest : q ∉ rest := (List.nodup_cons.1 hnd).1
    set tile1 : Tile :=
      { tileAt st q.1 q.2 with
        choices := some ((getChoices st (tileAt st q.1 q.2)).filter
          (fun x => (allowed_neighbors t).contains x)) } with htile1
    set stm := setScoreAt (setTileAt st q.1 q.2 tile1) q.1 q.2
      (tileScore st.tileTypes tile1) with hstm
    have hunf : update_neighbors t (q :: rest) st = update_neighbors t rest stm := by
      rw [hstm, htile1]
      rfl
    have hmty : stm.tileTypes = st.tileTypes := rfl
    have hmw : stm.width = st.width := rfl
    have hmh : stm.height = st.height := rfl
    have hmtl : stm.tiles.length = st.tiles.length := by
      rw [hstm]
      simp only [setScoreAt]
      exact tiles_length_setTileAt st q.1 q.2 tile1
    have hmrl : ∀ b, (stm.tiles.getD b []).length = (st.tiles.getD b []).length := by
      intro b
      rw [hstm]
      simp only [setScoreAt]
      exact rowlen_setTileAt st q.1 q.2 tile1 b
    have hmsl : stm.scores.length = st.scores.length := by
      rw [hstm, scores_length_setScoreAt]
      rfl
    have hmsrl : ∀ b, (stm.scores.getD b []).length = (st.scores.getD b []).length := by
      intro b
      rw [hstm, srowlen_setScoreAt]
      rfl
    have hmtile_ne : ∀ a b, (a, b) ≠ q → tileAt stm a b = tileAt st a b := by
      intro a b hab
      rw [hstm, tileAt_setScoreAt, tileAt_setTileAt_ne st q.1 q.2 tile1 a b
        (by simpa using hab)]
    have hmscore_ne : ∀ a b, (a, b) ≠ q → scoreAt stm a b = scoreAt st a b := by
      intro a b hab
      rw [hstm, scoreAt_setScoreAt_ne _ _ _ _ _ _ (by simpa using hab), scoreAt_setTileAt]
    have hmtile_q : tileAt stm q.1 q.2 = tile1 := by
      rw [hstm, tileAt_setScoreAt]
      exact tileAt_setTileAt_self st q.1 q.2 tile1 hqj hqi
    have hmscore_q : scoreAt stm q.1 q.2 = tileScore st.tileTypes tile1 := by
      rw [hstm]
      apply scoreAt_setScoreAt_self
      · simp only [setTileAt]
        exact hqsj
      · simp only [setTileAt]
        exact hqsi
    have hrange2 : ∀ p ∈ rest, p.2 < stm.tiles.length ∧ p.1 < (stm.tiles.getD p.2 []).length ∧
        p.2 < stm.scores.length ∧ p.1 < (stm.scores.getD p.2 []).length := by
      intro p hp
      obtain ⟨h1, h2, h3, h4⟩ := hrange p (List.mem_cons_of_mem q hp)
      rw [hmtl, hmrl, hmsl, hmsrl]
      exact ⟨h1, h2, h3, h4⟩
    obtain ⟨g1, g2, g3, g4, g5, g6, g7, g8, g9⟩ := ih stm (List.nodup_cons.1 hnd).2 hrange2
    rw [hunf]
    have hgc : ∀ u : Tile, getChoices stm u = getChoices st u := fun u => rfl
    refine ⟨g1.trans hmty, g2.trans hmw, g3.trans hmh, g4.trans hmtl,
      fun b => (g5 b).trans (hmrl b), g6.trans hmsl, fun b => (g7 b).trans (hmsrl b),
      ?_, ?_⟩
    · intro a b hab
      have habq : (a, b) ≠ q := fun h => hab (h ▸ List.mem_cons_self q rest)
      have habr : (a, b) ∉ rest := fun h => hab (List.mem_cons_of_mem q h)
      obtain ⟨f1, f2⟩ := g8 a b habr
      exact ⟨f1.trans (hmtile_ne a b habq), f2.trans (hmscore_ne a b habq)⟩
    · intro p hp
      rcases List.mem_cons.1 hp with rfl | hpr
      · obtain ⟨f1, f2⟩ := g8 p.1 p.2 (by simpa using hqrest)
        constructor
        · rw [f1, hmtile_q, htile1]
        · rw [f2, hmscore_q, f1, hmtile_q]
      · obtain ⟨f1, f2⟩ := g9 p hpr
        have hpq : p ≠ q := fun h => hqrest (h ▸ hpr)
        constructor
        · rw [f1, hmtile_ne p.1 p.2 (by simpa using hpq), hgc]
        · rw [f2, hmty]

theorem allowed_symm : ∀ a b : TType, a ∈ allowed_neighbors b ↔ b ∈ allowed_neighbors a := by
  decide

theorem tileTypesInit_nodup : tileTypesInit.Nodup := by
  decide

theorem len_le_of_nodup_sub (l : List TType) (hnd : l.Nodup)
    (hsub : ∀ x ∈ l, x ∈ tileTypesInit) : l.length ≤ tileTypesInit.length := by
  have h1 : l.toFinset ⊆ tileTypesInit.toFinset := fun a ha =>
    List.mem_toFinset.2 (hsub a (List.mem_toFinset.1 ha))
  have h2 := Finset.card_le_card h1
  rw [List.toFinset_card_of_nodup hnd, List.toFinset_card_of_nodup tileTypesInit_nodup] at h2
  exact h2

theorem tileScore_unresolved (types : List TType) (u : Tile) (h : u.ty = none) :
    tileScore types u = (u.choices.getD types).length := by
  rw [tileScore, h]
  rfl

theorem tileScore_resolved (types : List TType) (u : Tile) (a : TType) (h : u.ty = some a) :
    tileScore types u = max_score := by
  rw [tileScore, h]
  rfl

theorem commitLoop_error (nbrs : List (Nat × Nat)) (i j : Nat) :
    ∀ (fuel : Nat) (st : WState) (r : List Nat) (e : Err),
      commitLoop nbrs i j fuel st r = .error e → e = .indexError := by
  intro fuel
  induction fuel with
  | zero =>
    intro st r e h
    simp only [commitLoop] at h
    injection h with h2
    exact h2.symm
  | succ fuel ih =>
    intro st r e h
    simp only [commitLoop] at h
    by_cases hemp : (getChoices st (tileAt st i j)).isEmpty
    · rw [if_pos hemp] at h
      injection h with h2
      exact h2.symm
    · rw [if_neg hemp] at h
      by_cases hchk : check_neighbors
          (setTileAt st i j
            { tileAt st i j with
              ty := some ((getChoices st (tileAt st i j)).getD
                (r.headD 0 % (getChoices st (tileAt st i j)).length) .forest) })
          ((getChoices st (tileAt st i j)).getD
            (r.headD 0 % (getChoices st (tileAt st i j)).length) .forest) nbrs
      · rw [if_pos hchk] at h
        cases h
      · rw [if_neg hchk] at h
        exact ih _ _ _ h

theorem stepFn_committed_spec (st : WState) (r : List Nat) (st3 : WState) (i j : Nat)
    (t : TType) (r2 : List Nat) (hinv : SolverInv st)
    (hrun : stepFn st r = .ok (st3, .committed i j t, r2)) :
    ∃ m, npMin st.scores = some m ∧ m ≠ max_score ∧
      i < st.width ∧ j < st.height ∧
      (tileAt st i j).ty = none ∧ scoreAt st i j = m ∧
      (∀ b, b < st.height → ∀ a, a < st.width → m ≤ scoreAt st a b) ∧
      st3.tileTypes = st.tileTypes ∧ st3.width = st.width ∧ st3.height = st.height ∧
      (tileAt st3 i j).ty = some t ∧
      t ∈ getChoices st3 (tileAt st3 i j) ∧
      (∀ x ∈ getChoices st3 (tileAt st3 i j), x ∈ getChoices st (tileAt st i j)) ∧
      scoreAt st3 i j = max_score ∧
      (∀ b, b < st.height → ∀ a, a < st.width → (a, b) ≠ (i, j) →
        (tileAt st3 a b).ty = (tileAt st a b).ty) ∧
      (∀ b, b < st.height → ∀ a, a < st.width →
        ∀ x ∈ getChoices st3 (tileAt st3 a b), x ∈ getChoices st (tileAt st a b)) ∧
      (∀ p ∈ get_neighbors st.width st.height i j,
        tileAt st3 p.1 p.2 =
          { tileAt st p.1 p.2 with
            choices := some ((getChoices st (tileAt st p.1 p.2)).filter
              (fun x => (allowed_neighbors t).contains x)) } ∧
        scoreAt st3 p.1 p.2 = tileScore st3.tileTypes (tileAt st3 p.1 p.2)) ∧
      (∀ a b, (a, b) ≠ (i, j) → (a, b) ∉ get_neighbors st.width st.height i j →
        tileAt st3 a b = tileAt st a b ∧ scoreAt st3 a b = scoreAt st a b) ∧
      SolverInv st3 := by
  obtain ⟨hty0, ⟨htl, hrl, hsl, hsrl⟩, hagree, hsub, hadj, hnarrow⟩ := hinv
  rcases hmin : npMin st.scores with _ | m
  · rw [stepFn, hmin] at hrun
    cases hrun
  · rw [stepFn, hmin] at hrun
    simp only [] at hrun
    by_cases hm6 : m = max_score
    · rw [if_pos hm6] at hrun
      simp only [Except.ok.injEq, Prod.mk.injEq] at hrun
      cases hrun.2.1
    · rw [if_neg hm6] at hrun
      have htne : whereEq st.scores m ≠ [] := whereEq_ne_nil hmin
      rw [if_neg (by simpa [List.isEmpty_iff] using htne)] at hrun
      set ji := (whereEq st.scores m).getD
        (r.headD 0 % (whereEq st.scores m).length) (0, 0) with hji
      have hjimem : ji ∈ whereEq st.scores m :=
        getD_mem_of_lt _ _ _ (Nat.mod_lt _ (List.length_pos.2 htne))
      obtain ⟨hjlt, hilt, hentry⟩ := mem_whereEq.1 hjimem
      have hjH : ji.1 < st.height := by
        rw [← hsl]
        exact hjlt
      have hiW : ji.2 < st.width := by
        rw [← hsrl ji.1 hjH]
        exact hilt
      have hscore : scoreAt st ji.2 ji.1 = m := hentry
      have hjt : ji.1 < st.tiles.length := by
        rw [htl]
        exact hjH
      have hit : ji.2 < (st.tiles.getD ji.1 []).length := by
        rw [hrl ji.1 hjH]
        exact hiW
      have htyn : (tileAt st ji.2 ji.1).ty = none := by
        rcases hh : (tileAt st ji.2 ji.1).ty with _ | a
        · rfl
        · exfalso
          apply hm6
          rw [← hscore, hagree ji.1 hjH ji.2 hiW, tileScore_resolved _ _ a hh]
      have hlenc : (getChoices st (tileAt st ji.2 ji.1)).length = m := by
        rw [← hscore, hagree ji.1 hjH ji.2 hiW, tileScore_unresolved _ _ htyn]
        rfl
      have hminle : ∀ b, b < st.height → ∀ a, a < st.width → m ≤ scoreAt st a b := by
        intro b hb a ha
        apply npMin_le hmin
        apply entryAt_mem_flatten
        · rw [hsl]
          exact hb
        · rw [hsrl b hb]
          exact ha
      rcases hcl : commitLoop (get_neighbors st.width st.height ji.2 ji.1) ji.2 ji.1
          ((getChoices st (tileAt st ji.2 ji.1)).length + 1) st r.tail with e | ⟨st1, t1, rr⟩
      · rw [hcl] at hrun
        cases hrun
      · rw [hcl] at hrun
        simp only [Except.ok.injEq, Prod.mk.injEq, StepOutcome.committed.injEq] at hrun
        obtain ⟨hst3, ⟨hieq, hjeq, hteq⟩, hreq⟩ := hrun
        subst hieq
        subst hjeq
        subst hteq
        subst hreq
        subst hst3
        have hC : st1.tileTypes = st.tileTypes ∧ st1.width = st.width ∧
            st1.height = st.height ∧ st1.scores = st.scores ∧
            st1.tiles.length = st.tiles.length ∧
            (∀ b, (st1.tiles.getD b []).length = (st.tiles.getD b []).length) ∧
            (∀ a b, (a, b) ≠ (ji.2, ji.1) → tileAt st1 a b = tileAt st a b) ∧
            (tileAt st1 ji.2 ji.1).ty = some t1 ∧
            (∀ x ∈ getChoices st1 (tileAt st1 ji.2 ji.1),
              x ∈ getChoices st (tileAt st ji.2 ji.1)) ∧
            t1 ∈ getChoices st1 (tileAt st1 ji.2 ji.1) ∧
            ((getChoices st (tileAt st ji.2 ji.1)).Nodup →
              (getChoices st1 (tileAt st1 ji.2 ji.1)).Nodup) ∧
            check_neighbors st1 t1 (get_neighbors st.width st.height ji.2 ji.1) = true := by
          rcases hch : (tileAt st ji.2 ji.1).choices with _ | l
          · have hctypes : getChoices st (tileAt st ji.2 ji.1) = st.tileTypes := by
              rw [getChoices, hch]
              rfl
            have hm5 : m = tileTypesInit.length := by
              rw [← hlenc, hctypes, hty0]
            have hfull : ∀ b, b < st.height → ∀ a, a < st.width →
                (tileAt st a b).ty = none →
                tileTypesInit.length ≤ (getChoices st (tileAt st a b)).length := by
              intro b hb a ha hn
              rw [← hm5]
              have := hminle b hb a ha
              rw [hagree b hb a ha, tileScore_unresolved _ _ hn] at this
              exact this
            obtain ⟨t0, ht0mem, heq⟩ := commitLoop_fresh
              (get_neighbors st.width st.height ji.2 ji.1) ji.2 ji.1
              (getChoices st (tileAt st ji.2 ji.1)).length st r.tail hch
              (by rw [hty0]; decide)
              (fun t2 => check_neighbors_of_full st ji.2 ji.1 t2 _ hsub hiW hjH hfull)
            rw [heq] at hcl
            simp only [Except.ok.injEq, Prod.mk.injEq] at hcl
            obtain ⟨hst1, ht01, hrr⟩ := hcl
            subst ht01
            have htA : tileAt st1 ji.2 ji.1 = { tileAt st ji.2 ji.1 with ty := some t0 } := by
              rw [← hst1]
              exact tileAt_setTileAt_self st ji.2 ji.1 _ hjt hit
            have hchA : (tileAt st1 ji.2 ji.1).choices = none := by
              rw [htA]
              exact hch
            have hgc1 : getChoices st1 (tileAt st1 ji.2 ji.1) =
                getChoices st (tileAt st ji.2 ji.1) := by
              rw [getChoices, hchA, hctypes, ← hst1]
              rfl
            refine ⟨by rw [← hst1]; rfl, by rw [← hst1]; rfl, by rw [← hst1]; rfl,
              by rw [← hst1]; rfl,
              by rw [← hst1]; exact tiles_length_setTileAt st ji.2 ji.1 _,
              by rw [← hst1]; exact fun b => rowlen_setTileAt st ji.2 ji.1 _ b,
              ?_, ?_, ?_, ?_, ?_, ?_⟩
            · intro a b hab
              rw [← hst1]
              exact tileAt_setTileAt_ne st ji.2 ji.1 _ a b hab
            · rw [htA]
            · rw [hgc1]
              exact fun x hx => hx
            · rw [hgc1, hctypes]
              exact ht0mem
            · rw [hgc1]
              exact fun h => h
            · rw [← hst1]
              exact check_neighbors_of_full st ji.2 ji.1 t0 _ hsub hiW hjH hfull
          · obtain ⟨e1, e2, e3, e4, e4a, e4b, e5, e6, e7, e8,
              ⟨l2, f1, f2, f3, f4⟩, e9⟩ :=
              commitLoop_owned (get_neighbors st.width st.height ji.2 ji.1) ji.2 ji.1
                ((getChoices st (tileAt st ji.2 ji.1)).length + 1) st r.tail l st1 t1 rr
                hch hjt hit hcl
            have hgl : getChoices st (tileAt st ji.2 ji.1) = l := by
              rw [getChoices, hch]
              rfl
            have hgl2 : getChoices st1 (tileAt st1 ji.2 ji.1) = l2 := by
              rw [getChoices, f1]
              rfl
            refine ⟨e1, e2, e3, e4, e4a, e4b, e5, e8, ?_, ?_, ?_, e9⟩
            · rw [hgl2, hgl]
              exact fun x hx => f2 hx
            · rw [hgl2]
              exact f3
            · rw [hgl2, hgl]
              exact f4
        obtain ⟨c1, c2, c3, c4, c5, c6, c7, c8, c9, c10, c11, c12⟩ := hC
        set nb := get_neighbors st.width st.height ji.2 ji.1 with hnb
        set stm := setScoreAt st1 ji.2 ji.1 (tileScore st1.tileTypes (tileAt st1 ji.2 ji.1))
          with hstm
        set fin := update_neighbors t1 nb stm with hfin
        have hmty : stm.tileTypes = st.tileTypes := c1
        have hmtiles : stm.tiles = st1.tiles := rfl
        have hm_tileAt : ∀ a b, tileAt stm a b = tileAt st1 a b := fun a b => rfl
        have hs1score : ∀ a b, scoreAt st1 a b = scoreAt st a b := by
          intro a b
          unfold scoreAt
          rw [c4]
        have hcenterne : (ji.2, ji.1) ∉ nb := by
          intro hmem
          exact get_neighbors_ne_self hmem rfl
        have hmscore_self : scoreAt stm ji.2 ji.1 =
            tileScore st1.tileTypes (tileAt st1 ji.2 ji.1) := by
          rw [hstm]
          apply scoreAt_setScoreAt_self
          · rw [show st1.scores = st.scores from c4]
            exact hjlt
          · rw [show st1.scores = st.scores from c4]
            exact hilt
        have hmax : tileScore st1.tileTypes (tileAt st1 ji.2 ji.1) = max_score :=
          tileScore_resolved _ _ t1 c8
        have hmscore_ne : ∀ a b, (a, b) ≠ (ji.2, ji.1) → scoreAt stm a b = scoreAt st a b := by
          intro a b hab
          rw [hstm, scoreAt_setScoreAt_ne _ _ _ _ _ _ hab, hs1score]
        have hndnb : nb.Nodup := by
          rw [hnb]
          exact get_neighbors_nodup _ _ _ _
        have hnbrange : ∀ p ∈ nb, p.1 < st.width ∧ p.2 < st.height := by
          intro p hp
          rw [hnb] at hp
          exact get_neighbors_range hiW hjH hp
        have hranges : ∀ p ∈ nb, p.2 < stm.tiles.length ∧
            p.1 < (stm.tiles.getD p.2 []).length ∧ p.2 < stm.scores.length ∧
            p.1 < (stm.scores.getD p.2 []).length := by
          intro p hp
          obtain ⟨hp1, hp2⟩ := hnbrange p hp
          refine ⟨?_, ?_, ?_, ?_⟩
          · rw [show stm.tiles = st1.tiles from rfl, c5, htl]
            exact hp2
          · rw [show stm.tiles = st1.tiles from rfl, c6, hrl p.2 hp2]
            exact hp1
          · rw [hstm, scores_length_setScoreAt, show st1.scores = st.scores from c4, hsl]
            exact hp2
          · rw [hstm, srowlen_setScoreAt, show st1.scores = st.scores from c4, hsrl p.2 hp2]
            exact hp1
        obtain ⟨g1, g2, g3, g4, g5, g6, g7, g8, g9⟩ := update_neighbors_spec t1 nb stm hndnb hranges
        have hfinty : fin.tileTypes = st.tileTypes := g1.trans hmty
        have hfw : fin.width = st.width := g2.trans c2
        have hfh : fin.height = st.height := g3.trans c3
        have hgc3 : ∀ u, getChoices fin u = getChoices st u := by
          intro u
          unfold getChoices
          rw [hfinty]
        have hgcm : ∀ u, getChoices stm u = getChoices st u := by
          intro u
          unfold getChoices
          rw [show stm.tileTypes = st.tileTypes from hmty]
        have hgc1u : ∀ u, getChoices st1 u = getChoices st u := by
          intro u
          unfold getChoices
          rw [c1]
        have hframe : ∀ a b, (a, b) ≠ (ji.2, ji.1) → (a, b) ∉ nb →
            tileAt fin a b = tileAt st a b ∧ scoreAt fin a b = scoreAt st a b := by
          intro a b hab hnbm
          obtain ⟨f1, f2⟩ := g8 a b hnbm
          exact ⟨(f1.trans (hm_tileAt a b)).trans (c7 a b hab),
            f2.trans (hmscore_ne a b hab)⟩
        have hcenter_tile : tileAt fin ji.2 ji.1 = tileAt st1 ji.2 ji.1 :=
          ((g8 ji.2 ji.1 hcenterne).1).trans (hm_tileAt ji.2 ji.1)
        have hcenter_ty : (tileAt fin ji.2 ji.1).ty = some t1 := by
          rw [hcenter_tile]
          exact c8
        have hcenter_score : scoreAt fin ji.2 ji.1 = max_score :=
          ((g8 ji.2 ji.1 hcenterne).2).trans (hmscore_self.trans hmax)
        have hcenter_sub : ∀ x ∈ getChoices fin (tileAt fin ji.2 ji.1),
            x ∈ getChoices st (tileAt st ji.2 ji.1) := by
          intro x hx
          rw [hcenter_tile, hgc3, ← hgc1u] at hx
          exact c9 x hx
        have hcenter_mem : t1 ∈ getChoices fin (tileAt fin ji.2 ji.1) := by
          rw [hcenter_tile, hgc3, ← hgc1u]
          exact c10
        have hnbr : ∀ p ∈ nb,
            tileAt fin p.1 p.2 =
              { tileAt st p.1 p.2 with
                choices := some ((getChoices st (tileAt st p.1 p.2)).filter
                  (fun x => (allowed_neighbors t1).contains x)) } ∧
            scoreAt fin p.1 p.2 = tileScore fin.tileTypes (tileAt fin p.1 p.2) := by
          intro p hp
          obtain ⟨f1, f2⟩ := g9 p hp
          have hpc : p ≠ (ji.2, ji.1) := by
            rw [hnb] at hp
            exact get_neighbors_ne_self hp
          have hteq : tileAt stm p.1 p.2 = tileAt st p.1 p.2 :=
            (hm_tileAt p.1 p.2).trans (c7 p.1 p.2 (by simpa using hpc))
          constructor
          · rw [f1, hteq, hgcm]
          · rw [f2]
            have : tileScore stm.tileTypes (tileAt fin p.1 p.2) =
                tileScore fin.tileTypes (tileAt fin p.1 p.2) := by
              rw [show stm.tileTypes = st.tileTypes from hmty, hfinty]
            exact this
        have htypre : ∀ b, b < st.height → ∀ a, a < st.width → (a, b) ≠ (ji.2, ji.1) →
            (tileAt fin a b).ty = (tileAt st a b).ty := by
          intro b hb a ha hab
          by_cases hmem : (a, b) ∈ nb
          · rw [(hnbr (a, b) hmem).1]
          · rw [(hframe a b hab hmem).1]
        have hmono : ∀ b, b < st.height → ∀ a, a < st.width →
            ∀ x ∈ getChoices fin (tileAt fin a b), x ∈ getChoices st (tileAt st a b) := by
          intro b hb a ha x hx
          by_cases hc : (a, b) = (ji.2, ji.1)
          · rw [Prod.mk.injEq] at hc
            obtain ⟨rfl, rfl⟩ := hc
            exact hcenter_sub x hx
          · by_cases hmem : (a, b) ∈ nb
            · rw [(hnbr (a, b) hmem).1] at hx
              have hx2 : x ∈ (getChoices st (tileAt st a b)).filter
                  (fun y => (allowed_neighbors t1).contains y) := hx
              exact (List.mem_filter.1 hx2).1
            · rw [(hframe a b hc hmem).1, hgc3] at hx
              exact hx
        have hftl : fin.tiles.length = st.tiles.length := g4.trans c5
        have hfrl : ∀ b, (fin.tiles.getD b []).length = (st.tiles.getD b []).length :=
          fun b => (g5 b).trans (c6 b)
        have hfsl : fin.scores.length = st.scores.length :=
          g6.trans ((scores_length_setScoreAt st1 ji.2 ji.1 _).trans (congrArg List.length c4))
        have hfsrl : ∀ b, (fin.scores.getD b []).length = (st.scores.getD b []).length := by
          intro b
          rw [g7 b, hstm, srowlen_setScoreAt, c4]
        have hshape3 : ShapeOK fin :=
          ⟨hftl.trans (htl.trans hfh.symm),
           fun b hb => (hfrl b).trans ((hrl b (hfh ▸ hb)).trans hfw.symm),
           hfsl.trans (hsl.trans hfh.symm),
           fun b hb => (hfsrl b).trans ((hsrl b (hfh ▸ hb)).trans hfw.symm)⟩
        have hagree3 : AgreeOK fin := by
          intro b hb a ha
          rw [hfh] at hb
          rw [hfw] at ha
          by_cases hc : (a, b) = (ji.2, ji.1)
          · rw [Prod.mk.injEq] at hc
            obtain ⟨rfl, rfl⟩ := hc
            rw [hcenter_score, tileScore_resolved _ _ t1 hcenter_ty]
          · by_cases hmem : (a, b) ∈ nb
            · exact (hnbr (a, b) hmem).2
            · obtain ⟨f1, f2⟩ := hframe a b hc hmem
              rw [f2, f1, hfinty]
              exact hagree b hb a ha
        have hsub3 : SubOK fin := by
          intro b hb a ha
          rw [hfh] at hb
          rw [hfw] at ha
          constructor
          · intro x hx
            exact (hsub b hb a ha).1 x (hmono b hb a ha x hx)
          · by_cases hc : (a, b) = (ji.2, ji.1)
            · rw [Prod.mk.injEq] at hc
              obtain ⟨rfl, rfl⟩ := hc
              have hcc : getChoices fin (tileAt fin ji.2 ji.1) =
                  getChoices st1 (tileAt st1 ji.2 ji.1) := by
                rw [hcenter_tile, hgc3, hgc1u]
              rw [hcc]
              exact c11 (hsub ji.1 hb ji.2 ha).2
            · by_cases hmem : (a, b) ∈ nb
              · rw [(hnbr (a, b) hmem).1]
                exact List.Nodup.filter _ (hsub b hb a ha).2
              · rw [(hframe a b hc hmem).1, hgc3]
                exact (hsub b hb a ha).2
        have hadj3 : AdjOK fin := by
          intro b hb a ha p hp A B hA hB
          rw [hfh] at hb
          rw [hfw] at ha
          rw [hfw, hfh] at hp
          obtain ⟨hp1, hp2⟩ := get_neighbors_range ha hb hp
          by_cases hzc : (a, b) = (ji.2, ji.1)
          · rw [Prod.mk.injEq] at hzc
            obtain ⟨rfl, rfl⟩ := hzc
            rw [hcenter_ty] at hA
            injection hA with hAeq
            subst hAeq
            have hpne : p ≠ (ji.2, ji.1) := get_neighbors_ne_self hp
            have hBst : (tileAt st p.1 p.2).ty = some B := by
              rw [← htypre p.2 hp2 p.1 hp1 hpne]
              exact hB
            have hmem2 : (ji.2, ji.1) ∈ get_neighbors st.width st.height p.1 p.2 :=
              (get_neighbors_symm ha hb hp1 hp2).1 hp
            have ht1A : t1 ∈ allowed_neighbors B :=
              hnarrow p.2 hp2 p.1 hp1 (ji.2, ji.1) hmem2 B hBst htyn t1 (c9 t1 c10)
            exact (allowed_symm t1 B).1 ht1A
          · by_cases hpc : p = (ji.2, ji.1)
            · have hq1 : p.1 = ji.2 := by rw [hpc]
              have hq2 : p.2 = ji.1 := by rw [hpc]
              rw [hq1, hq2, hcenter_ty] at hB
              injection hB with hBeq
              subst hBeq
              have hAst : (tileAt st a b).ty = some A := by
                rw [← htypre b hb a ha hzc]
                exact hA
              have hmemc : (ji.2, ji.1) ∈ get_neighbors st.width st.height a b := by
                rw [← hq1, ← hq2]
                exact hp
              exact hnarrow b hb a ha (ji.2, ji.1) hmemc A hAst htyn t1 (c9 t1 c10)
            · have hAst : (tileAt st a b).ty = some A := by
                rw [← htypre b hb a ha hzc]
                exact hA
              have hBst : (tileAt st p.1 p.2).ty = some B := by
                rw [← htypre p.2 hp2 p.1 hp1 hpc]
                exact hB
              exact hadj b hb a ha p hp A B hAst hBst
        have hnarrow3 : NarrowOK fin := by
          intro b hb a ha p hp A hA hpnone x hx
          rw [hfh] at hb
          rw [hfw] at ha
          rw [hfw, hfh] at hp
          obtain ⟨hp1, hp2⟩ := get_neighbors_range ha hb hp
          have hpne : p ≠ (ji.2, ji.1) := by
            intro h
            have hq1 : p.1 = ji.2 := by rw [h]
            have hq2 : p.2 = ji.1 := by rw [h]
            rw [hq1, hq2, hcenter_ty] at hpnone
            cases hpnone
          by_cases hzc : (a, b) = (ji.2, ji.1)
          · rw [Prod.mk.injEq] at hzc
            obtain ⟨rfl, rfl⟩ := hzc
            rw [hcenter_ty] at hA
            injection hA with hAeq
            subst hAeq
            rw [(hnbr p hp).1] at hx
            have hx2 : x ∈ (getChoices st (tileAt st p.1 p.2)).filter
                (fun y => (allowed_neighbors t1).contains y) := hx
            have hcont := (List.mem_filter.1 hx2).2
            simpa using hcont
          · have hAst : (tileAt st a b).ty = some A := by
              rw [← htypre b hb a ha hzc]
              exact hA
            have hpnonest : (tileAt st p.1 p.2).ty = none := by
              rw [← htypre p.2 hp2 p.1 hp1 hpne]
              exact hpnone
            exact hnarrow b hb a ha p hp A hAst hpnonest x
              (hmono p.2 hp2 p.1 hp1 x hx)
        have hinv3 : SolverInv fin :=
          ⟨hfinty.trans hty0, hshape3, hagree3, hsub3, hadj3, hnarrow3⟩
        exact ⟨m, rfl, hm6, hiW, hjH, htyn, hscore, hminle, hfinty, hfw, hfh,
          hcenter_ty, hcenter_mem, hcenter_sub, hcenter_score, htypre, hmono, hnbr,
          hframe, hinv3⟩

theorem stepFn_complete_spec (st : WState) (r : List Nat) (st2 : WState) (r2 : List Nat)
    (hinv : SolverInv st) (hrun : stepFn st r = .ok (st2, .complete, r2)) :
    st2 = st ∧ r2 = r ∧
      ∀ b, b < st.height → ∀ a, a < st.width → (tileAt st a b).ty ≠ none := by
  obtain ⟨hty0, ⟨htl, hrl, hsl, hsrl⟩, hagree, hsub, hadj, hnarrow⟩ := hinv
  rcases hmin : npMin st.scores with _ | m
  · rw [stepFn, hmin] at hrun
    cases hrun
  · rw [stepFn, hmin] at hrun
    simp only [] at hrun
    by_cases hm6 : m = max_score
    · rw [if_pos hm6] at hrun
      simp only [Except.ok.injEq, Prod.mk.injEq] at hrun
      refine ⟨hrun.1.symm, hrun.2.2.symm, ?_⟩
      intro b hb a ha hn
      have hge := npMin_le hmin (scoreAt st a b)
        (entryAt_mem_flatten (by rw [hsl]; exact hb) (by rw [hsrl b hb]; exact ha))
      rw [hagree b hb a ha, tileScore_unresolved _ _ hn] at hge
      have hle : ((tileAt st a b).choices.getD st.tileTypes).length ≤
          tileTypesInit.length :=
        len_le_of_nodup_sub _ (hsub b hb a ha).2 (hsub b hb a ha).1
      rw [hm6] at hge
      unfold max_score at hge
      omega
    · rw [if_neg hm6] at hrun
      have htne := whereEq_ne_nil hmin
      rw [if_neg (by simpa [List.isEmpty_iff] using htne)] at hrun
      rcases hcl : commitLoop
          (get_neighbors st.width st.height
            ((whereEq st.scores m).getD (r.headD 0 % (whereEq st.scores m).length) (0, 0)).2
            ((whereEq st.scores m).getD (r.headD 0 % (whereEq st.scores m).length) (0, 0)).1)
          ((whereEq st.scores m).getD (r.headD 0 % (whereEq st.scores m).length) (0, 0)).2
          ((whereEq st.scores m).getD (r.headD 0 % (whereEq st.scores m).length) (0, 0)).1
          ((getChoices st (tileAt st
            ((whereEq st.scores m).getD (r.headD 0 % (whereEq st.scores m).length) (0, 0)).2
            ((whereEq st.scores m).getD (r.headD 0 % (whereEq st.scores m).length) (0, 0)).1)).length + 1)
          st r.tail with e | ⟨st1, t1, rr⟩
      · rw [hcl] at hrun
        cases hrun
      · rw [hcl] at hrun
        simp only [Except.ok.injEq, Prod.mk.injEq] at hrun
        exact StepOutcome.noConfusion hrun.2.1

theorem npMin_eq_none {rows : List (List Nat)} (h : npMin rows = none) :
    rows.flatten = [] := by
  unfold npMin at h
  rcases hx : rows.flatten with _ | ⟨x, xs⟩
  · rfl
  · rw [hx] at h
    cases h

theorem stepFn_complete_of_all_resolved (st : WState) (r : List Nat)
    (hinv : SolverInv st) (hW : 0 < st.width) (hH : 0 < st.height)
    (hall : ∀ b, b < st.height → ∀ a, a < st.width → (tileAt st a b).ty ≠ none) :
    stepFn st r = .ok (st, .complete, r) := by
  obtain ⟨hty0, ⟨htl, hrl, hsl, hsrl⟩, hagree, hsub, hadj, hnarrow⟩ := hinv
  have hmem0 : entryAt st.scores 0 0 ∈ st.scores.flatten :=
    entryAt_mem_flatten (by rw [hsl]; exact hH) (by rw [hsrl 0 hH]; exact hW)
  rcases hmin : npMin st.scores with _ | m
  · rw [npMin_eq_none hmin] at hmem0
    cases hmem0
  · have hm6 : m = max_score := by
      have hm := npMin_mem hmin
      rcases List.mem_flatten.1 hm with ⟨row, hrow, hmemr⟩
      rcases List.mem_iff_getElem.1 hrow with ⟨b, hb, hrowe⟩
      rcases List.mem_iff_getElem.1 hmemr with ⟨a, ha, hae⟩
      have hbh : b < st.height := by
        rw [← hsl]
        exact hb
      have hgd : st.scores.getD b [] = row := by
        rw [getD_eq_getElem_of_lt st.scores b [] hb, hrowe]
      have haw : a < st.width := by
        rw [← hsrl b hbh, hgd]
        exact ha
      have hsc : scoreAt st a b = m := by
        unfold scoreAt
        rw [hgd, ← hae, getD_eq_getElem_of_lt row a 0 ha]
      rcases hty : (tileAt st a b).ty with _ | c
      · exact absurd hty (hall b hbh a haw)
      · rw [← hsc, hagree b hbh a haw, tileScore_resolved _ _ c hty]
    rw [stepFn, hmin]
    simp only []
    rw [if_pos hm6]

theorem stepFn_ok_or_indexError (st : WState) (r : List Nat)
    (hinv : SolverInv st) (hW : 0 < st.width) (hH : 0 < st.height) :
    (stepFn st r).isOk = true ∨ stepFn st r = .error .indexError := by
  obtain ⟨hty0, ⟨htl, hrl, hsl, hsrl⟩, hagree, hsub, hadj, hnarrow⟩ := hinv
  have hmem0 : entryAt st.scores 0 0 ∈ st.scores.flatten :=
    entryAt_mem_flatten (by rw [hsl]; exact hH) (by rw [hsrl 0 hH]; exact hW)
  rcases hmin : npMin st.scores with _ | m
  · rw [npMin_eq_none hmin] at hmem0
    cases hmem0
  · rw [stepFn, hmin]
    simp only []
    by_cases hm6 : m = max_score
    · rw [if_pos hm6]
      exact Or.inl rfl
    · rw [if_neg hm6]
      have htne := whereEq_ne_nil hmin
      rw [if_neg (by simpa [List.isEmpty_iff] using htne)]
      rcases hcl : commitLoop
          (get_neighbors st.width st.height
            ((whereEq st.scores m).getD (r.headD 0 % (whereEq st.scores m).length) (0, 0)).2
            ((whereEq st.scores m).getD (r.headD 0 % (whereEq st.scores m).length) (0, 0)).1)
          ((whereEq st.scores m).getD (r.headD 0 % (whereEq st.scores m).length) (0, 0)).2
          ((whereEq st.scores m).getD (r.headD 0 % (whereEq st.scores m).length) (0, 0)).1
          ((getChoices st (tileAt st
            ((whereEq st.scores m).getD (r.headD 0 % (whereEq st.scores m).length) (0, 0)).2
            ((whereEq st.scores m).getD (r.headD 0 % (whereEq st.scores m).length) (0, 0)).1)).length + 1)
          st r.tail with e | ⟨st1, t1, rr⟩
      · right
        simp only []
        rw [commitLoop_error _ _ _ _ _ _ _ hcl]
      · left
        simp only []
        rfl

theorem getD_map_range {α : Type _} (f : Nat → α) (n k : Nat) (d : α) (h : k < n) :
    ((List.range n).map f).getD k d = f k := by
  rw [List.getD_eq_getElem?_getD, List.getElem?_map, List.getElem?_range h]
  rfl

theorem tileAt_init (W H i j : Nat) (hi : i < W) (hj : j < H) :
    tileAt (initState W H) i j = initTile i j := by
  show (((List.range H).map fun b => (List.range W).map fun a => initTile a b).getD j
    []).getD i defaultTile = initTile i j
  rw [getD_map_range _ H j _ hj, getD_map_range _ W i _ hi]

theorem scoreAt_init (W H i j : Nat) (hi : i < W) (hj : j < H) :
    scoreAt (initState W H) i j = tileTypesInit.length := by
  show ((((List.range H).map fun b => (List.range W).map fun a => initTile a b).map
    fun row => row.map (tileScore tileTypesInit)).getD j []).getD i 0 = tileTypesInit.length
  rw [List.map_map, getD_map_range _ H j _ hj]
  show (((List.range W).map fun a => initTile a j).map
    (tileScore tileTypesInit)).getD i 0 = tileTypesInit.length
  rw [List.map_map, getD_map_range _ W i _ hi]
  rfl

theorem solverInv_init (W H : Nat) : SolverInv (initState W H) := by
  refine ⟨rfl, ⟨?_, ?_, ?_, ?_⟩, ?_, ?_, ?_, ?_⟩
  · simp [initState]
  · intro j hj
    show (((List.range H).map fun b => (List.range W).map fun a => initTile a b).getD j
      []).length = W
    rw [getD_map_range _ H j _ hj]
    simp
  · simp [initState]
  · intro j hj
    show ((((List.range H).map fun b => (List.range W).map fun a => initTile a b).map
      fun row => row.map (tileScore tileTypesInit)).getD j []).length = W
    rw [List.map_map, getD_map_range _ H j _ hj]
    simp
  · intro b hb a ha
    rw [scoreAt_init W H a b ha hb, tileAt_init W H a b ha hb]
    rfl
  · intro b hb a ha
    rw [tileAt_init W H a b ha hb]
    have hgc : getChoices (initState W H) (initTile a b) = tileTypesInit := rfl
    rw [hgc]
    exact ⟨fun x hx => hx, tileTypesInit_nodup⟩
  · intro b hb a ha p hp A B hA
    rw [tileAt_init W H a b ha hb] at hA
    cases hA
  · intro b hb a ha p hp A hA
    rw [tileAt_init W H a b ha hb] at hA
    cases hA

theorem stepFn_inv (st : WState) (r : List Nat) (st2 : WState) (out : StepOutcome)
    (r2 : List Nat) (hinv : SolverInv st)
    (hrun : stepFn st r = .ok (st2, out, r2)) : SolverInv st2 := by
  rcases out with ⟨i, j, t⟩ | _
  · obtain ⟨m, hs⟩ := stepFn_committed_spec st r st2 i j t r2 hinv hrun
    exact hs.2.2.2.2.2.2.2.2.2.2.2.2.2.2.2.2.2.2
  · obtain ⟨h1, _, _⟩ := stepFn_complete_spec st r st2 r2 hinv hrun
    rw [h1]
    exact hinv

theorem runSteps_inv (n : Nat) :
    ∀ (st : WState) (r : List Nat) (st2 : WState) (r2 : List Nat),
      SolverInv st → runSteps n st r = .ok (st2, r2) → SolverInv st2 := by
  induction n with
  | zero =>
    intro st r st2 r2 hinv hrun
    simp only [runSteps, Except.ok.injEq, Prod.mk.injEq] at hrun
    rw [← hrun.1]
    exact hinv
  | succ n ih =>
    intro st r st2 r2 hinv hrun
    simp only [runSteps] at hrun
    rcases hstep : stepFn st r with e | ⟨st1, out, r1⟩
    · rw [hstep] at hrun
      cases hrun
    · rw [hstep] at hrun
      exact ih st1 r1 st2 r2 (stepFn_inv st r st1 out r1 hinv hstep) hrun

theorem runSteps_init_inv (W H n : Nat) (r : List Nat) (st2 : WState) (r2 : List Nat)
    (hrun : runSteps n (initState W H) r = .ok (st2, r2)) : SolverInv st2 :=
  runSteps_inv n (initState W H) r st2 r2 (solverInv_init W H) hrun

theorem filter_flip {l : List Nat} {p q : Nat → Bool} {k0 : Nat} (hnd : l.Nodup)
    (hmem : k0 ∈ l) (hp : p k0 = true) (hq : q k0 = false)
    (hagree : ∀ x ∈ l, x ≠ k0 → p x = q x) :
    (l.filter q).length + 1 = (l.filter p).length := by
  induction l with
  | nil => cases hmem
  | cons a l2 ih =>
    have hnd2 := List.nodup_cons.1 hnd
    rcases List.mem_cons.1 hmem with rfl | hmem2
    · rw [List.filter_cons, List.filter_cons, if_pos hp, if_neg (by rw [hq]; exact Bool.false_ne_true)]
      have hcong : l2.filter p = l2.filter q := by
        apply List.filter_congr
        intro x hx
        exact hagree x (List.mem_cons_of_mem k0 hx) (fun h => hnd2.1 (h ▸ hx))
      rw [hcong, List.length_cons]
    · have hane : a ≠ k0 := fun h => hnd2.1 (h ▸ hmem2)
      have hpa := hagree a (List.mem_cons_self a l2) hane
      rw [List.filter_cons, List.filter_cons, ← hpa]
      by_cases hv : p a = true
      · rw [if_pos hv, if_pos hv, List.length_cons, List.length_cons,
          ih hnd2.2 hmem2 (fun x hx hxe => hagree x (List.mem_cons_of_mem a hx) hxe)]
      · rw [if_neg hv, if_neg hv]
        exact ih hnd2.2 hmem2 (fun x hx hxe => hagree x (List.mem_cons_of_mem a hx) hxe)

theorem unresolvedCount_init (W H : Nat) : unresolvedCount (initState W H) = W * H := by
  unfold unresolvedCount
  have hfe : ((List.range ((initState W H).width * (initState W H).height)).filter fun k =>
      (tileAt (initState W H) (k % (initState W H).width)
        (k / (initState W H).width)).ty == none) =
      List.range ((initState W H).width * (initState W H).height) := by
    rw [List.filter_eq_self]
    intro k hk
    rw [List.mem_range] at hk
    have hk2 : k < W * H := hk
    have hW : 0 < W := by
      rcases Nat.eq_zero_or_pos W with rfl | h
      · rw [Nat.zero_mul] at hk2
        cases hk2
      · exact h
    have hik : k % W < W := Nat.mod_lt k hW
    have hjk : k / W < H := Nat.div_lt_of_lt_mul hk2
    have hti := tileAt_init W H (k % W) (k / W) hik hjk
    show ((tileAt (initState W H) (k % W) (k / W)).ty == none) = true
    rw [hti]
    rfl
  rw [hfe, List.length_range]
  rfl

theorem unresolvedCount_commit (st st3 : WState) (i j : Nat)
    (hw : st3.width = st.width) (hh : st3.height = st.height)
    (hi : i < st.width) (hj : j < st.height)
    (hn : (tileAt st i j).ty = none) (ht : (tileAt st3 i j).ty ≠ none)
    (hpre : ∀ b, b < st.height → ∀ a, a < st.width → (a, b) ≠ (i, j) →
      (tileAt st3 a b).ty = (tileAt st a b).ty) :
    unresolvedCount st3 + 1 = unresolvedCount st := by
  unfold unresolvedCount
  rw [hw, hh]
  have hW : 0 < st.width := Nat.pos_of_ne_zero (by omega)
  set k0 := i + st.width * j with hk0
  have hk0i : k0 % st.width = i := by
    rw [hk0, Nat.add_mul_mod_self_left, Nat.mod_eq_of_lt hi]
  have hk0j : k0 / st.width = j := by
    rw [hk0, Nat.add_mul_div_left i j hW, Nat.div_eq_of_lt hi]
    omega
  have hk0lt : k0 < st.width * st.height := by
    have h1 : st.width * (j + 1) = st.width * j + st.width := by ring
    have h2 : st.width * (j + 1) ≤ st.width * st.height :=
      Nat.mul_le_mul_left _ (by omega)
    omega
  apply filter_flip (List.nodup_range _) (List.mem_range.2 hk0lt)
  · show ((tileAt st (k0 % st.width) (k0 / st.width)).ty == none) = true
    rw [hk0i, hk0j, hn]
    rfl
  · show ((tileAt st3 (k0 % st.width) (k0 / st.width)).ty == none) = false
    rw [hk0i, hk0j]
    rcases hv : (tileAt st3 i j).ty with _ | c
    · exact absurd hv ht
    · rfl
  · intro x hx hxk
    rw [List.mem_range] at hx
    have hxi : x % st.width < st.width := Nat.mod_lt x hW
    have hxj : x / st.width < st.height := Nat.div_lt_of_lt_mul hx
    have hne : (x % st.width, x / st.width) ≠ (i, j) := by
      intro h
      rw [Prod.mk.injEq] at h
      apply hxk
      rw [hk0, ← h.1, ← h.2]
      exact (Nat.mod_add_div x st.width).symm
    show ((tileAt st (x % st.width) (x / st.width)).ty == none) =
      ((tileAt st3 (x % st.width) (x / st.width)).ty == none)
    rw [hpre (x / st.width) hxj (x % st.width) hxi hne]

theorem encode_cell (W a b : Nat) (ha : a < W) :
    (a + W * b) % W = a ∧ (a + W * b) / W = b := by
  have hW : 0 < W := by omega
  constructor
  · rw [Nat.add_mul_mod_self_left, Nat.mod_eq_of_lt ha]
  · rw [Nat.add_mul_div_left a b hW, Nat.div_eq_of_lt ha]
    omega

theorem encode_lt (W H a b : Nat) (ha : a < W) (hb : b < H) : a + W * b < W * H := by
  have h1 : W * (b + 1) = W * b + W := by ring
  have h2 : W * (b + 1) ≤ W * H := Nat.mul_le_mul_left _ (by omega)
  omega

theorem count_zero_all_resolved (st : WState) (h : unresolvedCount st = 0) :
    ∀ b, b < st.height → ∀ a, a < st.width → (tileAt st a b).ty ≠ none := by
  intro b hb a ha hn
  unfold unresolvedCount at h
  rw [List.length_eq_zero, List.filter_eq_nil_iff] at h
  have hk := h (a + st.width * b) (List.mem_range.2 (encode_lt _ _ _ _ ha hb))
  obtain ⟨h1, h2⟩ := encode_cell st.width a b ha
  rw [h1, h2] at hk
  apply hk
  rw [hn]
  rfl

theorem outcomeAfter_succ (st : WState) (r : List Nat) (n : Nat) (st1 : WState)
    (out : StepOutcome) (r1 : List Nat) (hstep : stepFn st r = .ok (st1, out, r1)) :
    outcomeAfter st r (n + 1) = outcomeAfter st1 r1 n := by
  unfold outcomeAfter
  simp only [runSteps, hstep]

theorem terminal_reached : ∀ (c : Nat) (st : WState) (r : List Nat),
    SolverInv st → 0 < st.width → 0 < st.height → unresolvedCount st ≤ c →
    ∃ n, n ≤ c ∧ isTerminal (outcomeAfter st r n) = true := by
  intro c
  induction c with
  | zero =>
    intro st r hinv hW hH hc
    refine ⟨0, Nat.le_refl 0, ?_⟩
    have hall := count_zero_all_resolved st (Nat.le_zero.1 hc)
    have hcomp := stepFn_complete_of_all_resolved st r hinv hW hH hall
    unfold outcomeAfter
    simp only [runSteps, hcomp]
    rfl
  | succ c ih =>
    intro st r hinv hW hH hc
    rcases hstep : stepFn st r with e | ⟨st1, out, r1⟩
    · refine ⟨0, Nat.zero_le _, ?_⟩
      unfold outcomeAfter
      simp only [runSteps, hstep]
      rfl
    · rcases out with ⟨i, j, t⟩ | _
      · obtain ⟨m, _, _, hiW, hjH, htyn, _, _, _, hfw, hfh, hty3, _, _, _, htypre, _, _, _,
          hinv3⟩ := stepFn_committed_spec st r st1 i j t r1 hinv hstep
        have hcount : unresolvedCount st1 + 1 = unresolvedCount st :=
          unresolvedCount_commit st st1 i j hfw hfh hiW hjH htyn
            (by rw [hty3]; exact fun h => Option.noConfusion h) htypre
        obtain ⟨n, hn, hterm⟩ := ih st1 r1 hinv3 (by rw [hfw]; exact hW)
          (by rw [hfh]; exact hH) (by omega)
        refine ⟨n + 1, by omega, ?_⟩
        rw [outcomeAfter_succ st r n st1 _ r1 hstep]
        exact hterm
      · refine ⟨0, Nat.zero_le _, ?_⟩
        unfold outcomeAfter
        simp only [runSteps, hstep]
        obtain ⟨h1, h2, _⟩ := stepFn_complete_spec st r st1 r1 hinv hstep
        rfl

/-- The state of a 1-by-1 grid after its single commitment (first driver call
with an all-zero random stream). -/
def stW : WState :=
  { width := 1, height := 1, tileTypes := tileTypesInit,
    tiles := [[⟨0, 0, none, some .forest⟩]], scores := [[6]] }

/-- A 2-by-1 state in which the selected cell's sole candidate strands its
neighbor: every draw fails the neighbor check and the domain empties. -/
def stBad : WState :=
  { width := 2, height := 1, tileTypes := tileTypesInit,
    tiles := [[⟨0, 0, some [.mountains], none⟩, ⟨1, 0, some [.sea], none⟩]],
    scores := [[1, 1]] }

/-- The state of a 2-by-1 grid after its first commitment. -/
def st2x1 : WState :=
  { width := 2, height := 1, tileTypes := tileTypesInit,
    tiles := [[⟨0, 0, none, some .forest⟩,
      ⟨1, 0, some [.forest, .meadow, .mountains], none⟩]],
    scores := [[6, 3]] }

/-- The fully resolved 3-by-3 grid produced by nine driver calls with random
stream `[4, 4]`: the center commits `mountains`, every other cell `forest`. -/
def st9 : WState :=
  { width := 3, height := 3, tileTypes := tileTypesInit,
    tiles :=
      [[⟨0, 0, some [.forest, .meadow, .mountains], some .forest⟩,
        ⟨1, 0, some [.forest, .mountains], some .forest⟩,
        ⟨2, 0, some [.forest, .meadow, .mountains], some .forest⟩],
       [⟨0, 1, some [.forest, .mountains], some .forest⟩,
        ⟨1, 1, some [.forest, .meadow, .mountains], some .mountains⟩,
        ⟨2, 1, some [.forest, .mountains], some .forest⟩],
       [⟨0, 2, some [.forest, .meadow, .mountains], some .forest⟩,
        ⟨1, 2, some [.forest, .mountains], some .forest⟩,
        ⟨2, 2, some [.forest, .meadow, .mountains], some .forest⟩]],
    scores := [[6, 6, 6], [6, 6, 6], [6, 6, 6]] }

/-- `st9` after `remove_solitary_tiles` overwrites the solitary center. -/
def st9b : WState :=
  { width := 3, height := 3, tileTypes := tileTypesInit,
    tiles :=
      [[⟨0, 0, some [.forest, .meadow, .mountains], some .forest⟩,
        ⟨1, 0, some [.forest, .mountains], some .forest⟩,
        ⟨2, 0, some [.forest, .meadow, .mountains], some .forest⟩],
       [⟨0, 1, some [.forest, .mountains], some .forest⟩,
        ⟨1, 1, some [.forest, .meadow, .mountains], some .forest⟩,
        ⟨2, 1, some [.forest, .mountains], some .forest⟩],
       [⟨0, 2, some [.forest, .meadow, .mountains], some .forest⟩,
        ⟨1, 2, some [.forest, .mountains], some .forest⟩,
        ⟨2, 2, some [.forest, .meadow, .mountains], some .forest⟩]],
    scores := [[6, 6, 6], [6, 6, 6], [6, 6, 6]] }

deriving instance DecidableEq for Except


/-- C1: after any number of completed solver steps from a freshly initialized
grid (a run that has not raised), every pair of adjacent resolved cells is
compatible: the second cell's category is a member of the first cell's
compatibility set. -/
theorem C1_adjacency_validity (W H n : Nat) (r : List Nat) (st : WState)
    (r2 : List Nat) (hrun : runSteps n (initState W H) r = .ok (st, r2)) :
    AdjOK st :=
  (runSteps_init_inv W H n r st r2 hrun).2.2.2.2.1

/-- Witness for C1 at a concrete one-step run on a 1-by-2 grid. -/
theorem C1_adjacency_validity_witness : AdjOK st2x1 :=
  C1_adjacency_validity 2 1 1 [] st2x1 [] (by decide)

/-- C2 counterexample: with the selected cell's domain exhausted by failed
draws, the step does not return a result at all: the draw from the empty
population raises `IndexError` (`random.choices` in `Tile.choose_type`),
which propagates uncaught; there is no Contradiction return value.  The
state is a well-formed solver state (`SolverInv`). -/
theorem C2_counterexample :
    stepFn stBad [] = .error .indexError ∧ SolverInv stBad := by
  constructor
  · decide
  · decide

/-- C2 amended: the local retry loop always terminates — a step from any
well-formed state either returns normally or fails with precisely the
`IndexError` raised by drawing from the emptied domain, which is surfaced
to the caller as the terminal signal (an uncaught exception rather than a
returned Contradiction value). -/
theorem C2_retry_terminates_with_indexError (st : WState) (r : List Nat)
    (hinv : SolverInv st) (hW : 0 < st.width) (hH : 0 < st.height) :
    (stepFn st r).isOk = true ∨ stepFn st r = .error .indexError :=
  stepFn_ok_or_indexError st r hinv hW hH

/-- Witness for C2's amended theorem at the concrete exhausted state. -/
theorem C2_retry_terminates_witness :
    (stepFn stBad []).isOk = true ∨ stepFn stBad [] = .error .indexError :=
  C2_retry_terminates_with_indexError stBad [] (by decide) (by decide) (by decide)

/-- C3: every normally returning step either commits a previously unresolved
cell whose score equals the minimum score over all unresolved cells (the
committed cell being a member of that minimum set), or, when no unresolved
cell exists, returns the solve-complete result with the state unchanged. -/
theorem C3_minimum_entropy_selection (st : WState) (r : List Nat) (st2 : WState)
    (out : StepOutcome) (r2 : List Nat) (hinv : SolverInv st)
    (hrun : stepFn st r = .ok (st2, out, r2)) :
    (∃ i j t m, out = .committed i j t ∧ i < st.width ∧ j < st.height ∧
      (tileAt st i j).ty = none ∧ scoreAt st i j = m ∧
      (∀ b, b < st.height → ∀ a, a < st.width → (tileAt st a b).ty = none →
        m ≤ scoreAt st a b) ∧
      (tileAt st2 i j).ty = some t) ∨
    (out = .complete ∧ st2 = st ∧
      ∀ b, b < st.height → ∀ a, a < st.width → (tileAt st a b).ty ≠ none) := by
  rcases out with ⟨i, j, t⟩ | _
  · obtain ⟨m, _, _, hiW, hjH, htyn, hscore, hminle, _, _, _, hty3, _⟩ :=
      stepFn_committed_spec st r st2 i j t r2 hinv hrun
    exact Or.inl ⟨i, j, t, m, rfl, hiW, hjH, htyn, hscore,
      fun b hb a ha _ => hminle b hb a ha, hty3⟩
  · obtain ⟨h1, h2, h3⟩ := stepFn_complete_spec st r st2 r2 hinv hrun
    exact Or.inr ⟨rfl, h1, h3⟩

/-- Witness for C3 at the single step of a 1-by-1 grid. -/
theorem C3_minimum_entropy_selection_witness :
    (∃ i j t m, (StepOutcome.committed 0 0 TType.forest) = .committed i j t ∧
      i < (initState 1 1).width ∧ j < (initState 1 1).height ∧
      (tileAt (initState 1 1) i j).ty = none ∧ scoreAt (initState 1 1) i j = m ∧
      (∀ b, b < (initState 1 1).height → ∀ a, a < (initState 1 1).width →
        (tileAt (initState 1 1) a b).ty = none → m ≤ scoreAt (initState 1 1) a b) ∧
      (tileAt stW i j).ty = some t) ∨
    ((StepOutcome.committed 0 0 TType.forest) = .complete ∧ stW = initState 1 1 ∧
      ∀ b, b < (initState 1 1).height → ∀ a, a < (initState 1 1).width →
        (tileAt (initState 1 1) a b).ty ≠ none) :=
  C3_minimum_entropy_selection (initState 1 1) [] stW (.committed 0 0 .forest) []
    (by decide) (by decide)

/-- C4: across any normally returning step, the domain of every cell that is
still unresolved afterwards only shrinks: each remaining candidate was
already a candidate before the step.  No operation adds a category. -/
theorem C4_monotonic_shrinkage (st : WState) (r : List Nat) (st2 : WState)
    (out : StepOutcome) (r2 : List Nat) (hinv : SolverInv st)
    (hrun : stepFn st r = .ok (st2, out, r2)) :
    ∀ b, b < st.height → ∀ a, a < st.width → (tileAt st2 a b).ty = none →
      ∀ x ∈ getChoices st2 (tileAt st2 a b), x ∈ getChoices st (tileAt st a b) := by
  rcases out with ⟨i, j, t⟩ | _
  · obtain ⟨m, _, _, _, _, _, _, _, _, _, _, _, _, _, _, _, hmono, _⟩ :=
      stepFn_committed_spec st r st2 i j t r2 hinv hrun
    exact fun b hb a ha _ => hmono b hb a ha
  · obtain ⟨h1, _, _⟩ := stepFn_complete_spec st r st2 r2 hinv hrun
    rw [h1]
    exact fun b hb a ha _ x hx => hx

/-- Witness for C4 at the first step of a 2-by-1 grid, instantiated at the
unresolved neighbor cell and its surviving candidate `forest`. -/
theorem C4_monotonic_shrinkage_witness :
    TType.forest ∈ getChoices (initState 2 1) (tileAt (initState 2 1) 1 0) :=
  C4_monotonic_shrinkage (initState 2 1) [] st2x1 (.committed 0 0 .forest) []
    (by decide) (by decide) 0 (by decide) 1 (by decide) (by decide) .forest (by decide)

/-- C5 counterexample: the commit does not clear the committed cell's domain.
On a 1-by-1 grid the single cell commits `forest`, yet its `choices` still
reads as the whole category list afterwards (the `set_type` method never
touches `choices`). -/
theorem C5_counterexample :
    stepFn (initState 1 1) [] = .ok (stW, .committed 0 0 .forest, []) ∧
      getChoices stW (tileAt stW 0 0) = tileTypesInit ∧ tileTypesInit ≠ [] := by
  refine ⟨by decide, by decide, by decide⟩

/-- C5 amended: when a drawn category passes the neighbor check, the commit
sets the cell's resolved state to that category, but the domain is not
cleared: the drawn category itself is still among the cell's remaining
candidates after the step. -/
theorem C5_commit_sets_type_keeps_domain (st : WState) (r : List Nat) (st2 : WState)
    (i j : Nat) (t : TType) (r2 : List Nat) (hinv : SolverInv st)
    (hrun : stepFn st r = .ok (st2, .committed i j t, r2)) :
    (tileAt st2 i j).ty = some t ∧ t ∈ getChoices st2 (tileAt st2 i j) := by
  obtain ⟨m, _, _, _, _, _, _, _, _, _, _, hty3, hmem3, _⟩ :=
    stepFn_committed_spec st r st2 i j t r2 hinv hrun
  exact ⟨hty3, hmem3⟩

/-- Witness for C5's amended theorem on the 1-by-1 grid. -/
theorem C5_commit_sets_type_keeps_domain_witness :
    (tileAt stW 0 0).ty = some .forest ∧ .forest ∈ getChoices stW (tileAt stW 0 0) :=
  C5_commit_sets_type_keeps_domain (initState 1 1) [] stW 0 0 .forest []
    (by decide) (by decide)

/-- C6 counterexample: on a 1-by-1 grid (one cell), one call is not enough to
reach a terminal result: the first call returns a committed cell, and only
the second call reports completion.  The bound "at most the number of
cells" therefore fails. -/
theorem C6_counterexample :
    (initState 1 1).width * (initState 1 1).height = 1 ∧
      isTerminal (outcomeAfter (initState 1 1) [] 0) = false ∧
      isTerminal (outcomeAfter (initState 1 1) [] 1) = true := by
  refine ⟨by decide, by decide, by decide⟩

/-- C6 amended: from a freshly initialized grid, repeated driver calls reach
a terminal result (the solve-complete return or a raised exception) within
the number of cells plus one calls: some call with index at most
`width * height + 1` is terminal. -/
theorem C6_termination_bound (W H : Nat) (r : List Nat) (hW : 0 < W) (hH : 0 < H) :
    ∃ n, n ≤ W * H ∧ isTerminal (outcomeAfter (initState W H) r n) = true := by
  apply terminal_reached (W * H) (initState W H) r (solverInv_init W H) hW hH
  rw [unresolvedCount_init]

/-- Witness for C6's amended theorem on the 1-by-1 grid. -/
theorem C6_termination_bound_witness :
    ∃ n, n ≤ 1 ∧ isTerminal (outcomeAfter (initState 1 1) [] n) = true :=
  C6_termination_bound 1 1 [] (by decide) (by decide)

/-- C7: the propagation phase of a committing step filters the domain of each
still-unresolved direct neighbor by the committed category's compatibility
set and refreshes that neighbor's stored score from its tile, and the step
mutates no cell other than the committed cell and its direct neighbors. -/
theorem C7_propagation_local (st : WState) (r : List Nat) (st2 : WState)
    (i j : Nat) (t : TType) (r2 : List Nat) (hinv : SolverInv st)
    (hrun : stepFn st r = .ok (st2, .committed i j t, r2)) :
    (∀ p ∈ get_neighbors st.width st.height i j,
      ((tileAt st p.1 p.2).ty = none →
        tileAt st2 p.1 p.2 =
          { tileAt st p.1 p.2 with
            choices := some ((getChoices st (tileAt st p.1 p.2)).filter
              (fun x => (allowed_neighbors t).contains x)) }) ∧
      scoreAt st2 p.1 p.2 = tileScore st2.tileTypes (tileAt st2 p.1 p.2)) ∧
    (∀ a b, (a, b) ≠ (i, j) → (a, b) ∉ get_neighbors st.width st.height i j →
      tileAt st2 a b = tileAt st a b ∧ scoreAt st2 a b = scoreAt st a b) := by
  obtain ⟨m, _, _, _, _, _, _, _, _, _, _, _, _, _, _, _, _, hnbr, hframe, _⟩ :=
    stepFn_committed_spec st r st2 i j t r2 hinv hrun
  exact ⟨fun p hp => ⟨fun _ => (hnbr p hp).1, (hnbr p hp).2⟩, hframe⟩

/-- Witness for C7 at the first step of a 2-by-1 grid. -/
theorem C7_propagation_local_witness :
    (∀ p ∈ get_neighbors (initState 2 1).width (initState 2 1).height 0 0,
      ((tileAt (initState 2 1) p.1 p.2).ty = none →
        tileAt st2x1 p.1 p.2 =
          { tileAt (initState 2 1) p.1 p.2 with
            choices := some ((getChoices (initState 2 1)
                (tileAt (initState 2 1) p.1 p.2)).filter
              (fun x => (allowed_neighbors TType.forest).contains x)) }) ∧
      scoreAt st2x1 p.1 p.2 = tileScore st2x1.tileTypes (tileAt st2x1 p.1 p.2)) ∧
    (∀ a b, (a, b) ≠ (0, 0) →
      (a, b) ∉ get_neighbors (initState 2 1).width (initState 2 1).height 0 0 →
      tileAt st2x1 a b = tileAt (initState 2 1) a b ∧
        scoreAt st2x1 a b = scoreAt (initState 2 1) a b) :=
  C7_propagation_local (initState 2 1) [] st2x1 0 0 .forest [] (by decide) (by decide)

/-- C8 counterexample: a cell's category can be assigned again after its
commit.  A nine-step run on a 3-by-3 grid resolves the center to
`mountains` and all other cells to `forest`; the subsequent
`remove_solitary_tiles` pass then overwrites the already-resolved center
with `forest`, a second assignment to a resolved cell within one run. -/
theorem C8_counterexample :
    runSteps 9 (initState 3 3) [4, 4] = .ok (st9, []) ∧
      (tileAt st9 1 1).ty = some .mountains ∧
      removeSolitary st9 0 = .ok (some (st9b, 1, 1, 4)) ∧
      (tileAt st9b 1 1).ty = some .forest := by
  refine ⟨by decide, by decide, by decide, by decide⟩

/-- C8 amended: within the solver's step operation the transition is indeed
one-way and happens at most once — a cell resolved before a step keeps
exactly its category after the step (and no cell returns to unresolved);
only the separate `remove_solitary_tiles` pass can overwrite a resolved
cell's category. -/
theorem C8_step_preserves_resolved (st : WState) (r : List Nat) (st2 : WState)
    (out : StepOutcome) (r2 : List Nat) (hinv : SolverInv st)
    (hrun : stepFn st r = .ok (st2, out, r2)) :
    ∀ b, b < st.height → ∀ a, a < st.width → ∀ c, (tileAt st a b).ty = some c →
      (tileAt st2 a b).ty = some c := by
  rcases out with ⟨i, j, t⟩ | _
  · obtain ⟨m, _, _, _, _, htyn, _, _, _, _, _, _, _, _, _, htypre, _⟩ :=
      stepFn_committed_spec st r st2 i j t r2 hinv hrun
    intro b hb a ha c hc
    have hne : (a, b) ≠ (i, j) := by
      intro h
      rw [Prod.mk.injEq] at h
      rw [h.1, h.2, htyn] at hc
      cases hc
    rw [htypre b hb a ha hne]
    exact hc
  · obtain ⟨h1, _, _⟩ := stepFn_complete_spec st r st2 r2 hinv hrun
    rw [h1]
    exact fun b hb a ha c hc => hc

/-- The 2-by-1 grid of `st2x1` after its second (final) commitment. -/
def st2x1b : WState :=
  { width := 2, height := 1, tileTypes := tileTypesInit,
    tiles := [[⟨0, 0, some [.forest, .meadow, .mountains], some .forest⟩,
      ⟨1, 0, some [.forest, .meadow, .mountains], some .forest⟩]],
    scores := [[6, 6]] }

/-- Witness for C8's amended theorem: the second step of a 2-by-1 run keeps
the first cell's committed category, instantiated at that cell. -/
theorem C8_step_preserves_resolved_witness :
    (tileAt st2x1b 0 0).ty = some TType.forest :=
  C8_step_preserves_resolved st2x1 [] st2x1b (.committed 1 0 .forest) []
    (by decide) (by decide) 0 (by decide) 0 (by decide) .forest (by decide)

/-- C9: the static configuration is never mutated at runtime.  The
compatibility sets (`allowed_neighbors`) and weights (`type_weights`) are
fixed functions of the embedding, and the shared mutable `Tile.types` list
— which `tile.choices.remove` would mutate in place whenever the selected
cell still aliases it — is still exactly the initial category list after
any number of completed solver steps from a freshly initialized grid. -/
theorem C9_static_configuration (W H n : Nat) (r : List Nat) (st : WState)
    (r2 : List Nat) (hrun : runSteps n (initState W H) r = .ok (st, r2)) :
    st.tileTypes = tileTypesInit :=
  (runSteps_init_inv W H n r st r2 hrun).1

/-- Witness for C9 after a concrete one-step run. -/
theorem C9_static_configuration_witness : st2x1.tileTypes = tileTypesInit :=
  C9_static_configuration 2 1 1 [] st2x1 [] (by decide)

/-- C10: the score array is in sync with the tiles' derived scores right
after grid initialization and after every completed step of a run: each
entry equals the cell's domain size when unresolved and the `max_score`
sentinel when resolved. -/
theorem C10_score_cache_fresh (W H n : Nat) (r : List Nat) (st : WState)
    (r2 : List Nat) (hrun : runSteps n (initState W H) r = .ok (st, r2)) :
    AgreeOK (initState W H) ∧ AgreeOK st :=
  ⟨(solverInv_init W H).2.2.1, (runSteps_init_inv W H n r st r2 hrun).2.2.1⟩

/-- Witness for C10 after a concrete one-step run. -/
theorem C10_score_cache_fresh_witness : AgreeOK (initState 2 1) ∧ AgreeOK st2x1 :=
  C10_score_cache_fresh 2 1 1 [] st2x1 [] (by decide)
